import Mathlib

/-!
Shallow embedding of `mvpa/incrsearch.py` (class `IncrementalFeatureSearch`)
from the PyMVPA repository, together with proofs about the claims of its
specification.

Modelling conventions:
* numpy arrays shaped like the original feature space of the dataset are
  represented flattened in C (row-major) order, as a `List` together with a
  `shape`; coordinate-scan order of `np.nonzero` then coincides with
  increasing flat index;
* Python floats (classification performances, the break criterion) are
  modelled as exact rationals `ℚ`; the claims under study are order- and
  structure-level statements;
* exceptions are modelled with `Except ε`: every external collaborator call
  (dataset sub-selection, cross-validation, classifier fit/predict) may
  return `Except.error`, and the embedding propagates such errors exactly as
  Python propagates exceptions (no handler exists anywhere in the source);
* external collaborators (the pattern/dataset object, the `crossval` module
  helpers, the classifier) are passed in as function arguments, mirroring how
  the Python code calls them dynamically.
-/

namespace IncrSearch

/-- Maximum of a list of rationals, modelling `numpy.ndarray.max` on a
nonempty array; `0` for the empty list (a case the source never reaches). -/
def listMax : List ℚ → ℚ
  | [] => 0
  | [x] => x
  | x :: y :: ys => max x (listMax (y :: ys))

/-- Index of the first occurrence of the maximum of a list of rationals,
modelling `numpy.argmax` (which returns the first maximal index). -/
def idxOfMax : List ℚ → Nat
  | [] => 0
  | [_] => 0
  | x :: y :: ys => if listMax (y :: ys) ≤ x then 0 else idxOfMax (y :: ys) + 1

/-- Flat indices (in increasing order) of the nonzero entries of a flattened
array, starting the numbering at `i`. -/
def nonzeroIndicesFrom : Nat → List ℤ → List Nat
  | _, [] => []
  | i, x :: xs =>
    if x ≠ 0 then i :: nonzeroIndicesFrom (i + 1) xs
    else nonzeroIndicesFrom (i + 1) xs

/-- Flat indices of the nonzero entries of a flattened array, in increasing
order.  This models `np.transpose(mask.nonzero())`: `np.nonzero` enumerates
the coordinates of nonzero elements in C order, which on the flattened
representation is exactly increasing flat index. -/
def nonzeroIndices (data : List ℤ) : List Nat :=
  nonzeroIndicesFrom 0 data

/-- Insert a value into a sorted duplicate-free list, keeping it sorted and
duplicate-free. -/
def insertSortedUniq (x : ℤ) : List ℤ → List ℤ
  | [] => [x]
  | y :: ys =>
    if x < y then x :: y :: ys
    else if x = y then y :: ys
    else y :: insertSortedUniq x ys

/-- Sorted list of the distinct values of a list, modelling
`np.unique(mask).tolist()`. -/
def sortedUnique (data : List ℤ) : List ℤ :=
  data.foldr insertSortedUniq []

/-- Effectful map over a list in the `Except` monad, modelling a Python `for`
loop whose body may raise: the first raised exception aborts the whole loop
and propagates. -/
def mapExcept (f : α → Except ε β) : List α → Except ε (List β)
  | [] => .ok []
  | x :: xs =>
    match f x with
    | .error e => .error e
    | .ok y =>
      match mapExcept f xs with
      | .error e => .error e
      | .ok ys => .ok (y :: ys)

/-- Fraction of positions where two equal-length label lists agree, modelling
`(predictions == meta_test.reg).mean()` (division by zero yields `0` under
the `ℚ` convention; the source only applies this to nonempty test sets). -/
def accuracy [DecidableEq Λ] (preds regs : List Λ) : ℚ :=
  ((preds.zip regs).countP (fun pr => decide (pr.1 = pr.2)) : ℚ) / preds.length

/-- A numpy array shaped like the original feature space of the dataset:
its shape and its entries flattened in C order. -/
structure NdMask where
  shape : List Nat
  data : List ℤ
  deriving Repr, DecidableEq

/-- Decidable equality of `Except` values, for evaluating concrete runs. -/
instance exceptDecidableEq {ε α : Type _} [DecidableEq ε] [DecidableEq α] :
    DecidableEq (Except ε α) := fun a b =>
  match a, b with
  | .error e1, .error e2 =>
    if h : e1 = e2 then .isTrue (by rw [h]) else .isFalse (by simp [h])
  | .error _, .ok _ => .isFalse (by simp)
  | .ok _, .error _ => .isFalse (by simp)
  | .ok v1, .ok v2 =>
    if h : v1 = v2 then .isTrue (by rw [h]) else .isFalse (by simp [h])

variable {π θ σ ι Λ μ ν ε : Type}

/-- Method `__selectByFeatureId` of `IncrementalFeatureSearch`:
`selected + [candidate]` — Python list concatenation builds a fresh list and
mutates neither argument. -/
def selectByFeatureId (selected : List ι) (candidate : ι) : List ι :=
  selected ++ [candidate]

/-- Method `__selectByMaskValue` of `IncrementalFeatureSearch`:
`np.logical_or(selected, self.mask == candidate)` — element-wise logical or
of the boolean array `selected` with the boolean array comparing the stored
mask to the candidate value; it builds a fresh array and reads the mask only
through the equality comparison. -/
def selectByMaskValue (mask : NdMask) (selected : List Bool) (candidate : ℤ) :
    List Bool :=
  List.zipWith (fun b v => b || decide (v = candidate)) selected mask.data

/-- The `while` loop of `__doSelection`, with its mutable locals made
explicit: current `selected`, `best_performance_ever`, accumulated
`best_ids` and the local candidate list `feat_cand`.  Each iteration rates
every remaining candidate (the inner `for` loop filling `candidate_rating`;
a rating is the mean inner cross-validation performance of the trial
selection `merge selected candidate`), picks `feat_cand[argmax]` (first
maximal index, as `np.argmax`), stops when the improvement over
`best_performance_ever` is below the break criterion, and otherwise merges
the winner into `selected`, appends its id to `best_ids`, removes its first
occurrence from the local pool (`list.remove`) and updates
`best_performance_ever`.  On success the final local pool is also returned.
A raised exception propagates. -/
def doSelectionLoop [DecidableEq ι] (merge : σ → ι → σ)
    (rateSel : σ → Except ε ℚ) (break_crit : ℚ) :
    σ → ℚ → List ι → List ι → Except ε (σ × List ι × List ι)
  | selected, _, best_ids, [] => .ok (selected, best_ids, [])
  | selected, best_performance_ever, best_ids, c :: cs =>
    match mapExcept (fun cand => rateSel (merge selected cand)) (c :: cs) with
    | .error e => .error e
    | .ok candidate_rating =>
      let best_id := (c :: cs).getD (idxOfMax candidate_rating) c
      if listMax candidate_rating - best_performance_ever < break_crit then
        .ok (selected, best_ids, c :: cs)
      else
        doSelectionLoop merge rateSel break_crit
          (merge selected best_id) (listMax candidate_rating)
          (best_ids ++ [best_id]) ((c :: cs).erase best_id)
  termination_by s b ids cand => cand.length
  decreasing_by
    have hmem : (c :: cs).getD (idxOfMax candidate_rating) c ∈ c :: cs := by
      rcases Nat.lt_or_ge (idxOfMax candidate_rating) (c :: cs).length with
        h | h
      · rw [List.getD_eq_getElem?_getD, List.getElem?_eq_getElem h]
        exact List.getElem_mem h
      · rw [List.getD_eq_getElem?_getD, List.getElem?_eq_none h]
        exact List.mem_cons_self c cs
    rw [List.length_erase_of_mem hmem]
    simp

/-- Method `__doSelection` of `IncrementalFeatureSearch`: copies the
caller-supplied candidate list (`copy.copy(candidates)`) into the local pool
`feat_cand`, runs the greedy loop starting from
`best_performance_ever = 0.0` and an empty chosen list, and returns the
final selected set together with the ordered list of chosen candidate ids.
Rating a candidate restricts the training pattern to the trial selection
(`pattern.selectFeatures`, a dataset collaborator call abstracted as
`selectFeats`) and takes the mean inner cross-validation performance
(`__doCrossValidation` followed by `np.mean(cv.perf)`, abstracted as
`cvRate`). -/
def doSelection [DecidableEq ι]
    (selectFeats : π → σ → Except ε π) (cvRate : π → Except ε ℚ)
    (merge : σ → ι → σ) (break_crit : ℚ) (pattern : π)
    (selected : σ) (candidates : List ι) : Except ε (σ × List ι) :=
  match doSelectionLoop merge
      (fun s => match selectFeats pattern s with
        | .error e => .error e
        | .ok temp_pat => cvRate temp_pat)
      break_crit selected 0 [] candidates with
  | .error e => .error e
  | .ok (sel, best_ids, _) => .ok (sel, best_ids)

/-- Fuel-indexed structurally recursive evaluator for `doSelectionLoop`,
used to compute concrete runs by kernel reduction (the well-founded
recursion of `doSelectionLoop` does not reduce definitionally); it agrees
with `doSelectionLoop` whenever the fuel bounds the pool size, which always
holds with fuel equal to the initial pool length because every accepted
round removes one pool member. -/
def doSelectionLoopFuel [DecidableEq ι] (merge : σ → ι → σ)
    (rateSel : σ → Except ε ℚ) (break_crit : ℚ) :
    Nat → σ → ℚ → List ι → List ι → Except ε (σ × List ι × List ι)
  | _, selected, _, best_ids, [] => .ok (selected, best_ids, [])
  | 0, selected, _, best_ids, c :: cs => .ok (selected, best_ids, c :: cs)
  | fuel + 1, selected, best_performance_ever, best_ids, c :: cs =>
    match mapExcept (fun cand => rateSel (merge selected cand)) (c :: cs) with
    | .error e => .error e
    | .ok candidate_rating =>
      let best_id := (c :: cs).getD (idxOfMax candidate_rating) c
      if listMax candidate_rating - best_performance_ever < break_crit then
        .ok (selected, best_ids, c :: cs)
      else
        doSelectionLoopFuel merge rateSel break_crit fuel
          (merge selected best_id) (listMax candidate_rating)
          (best_ids ++ [best_id]) ((c :: cs).erase best_id)

/-- The effect of one `__doSelection` call on the caller-owned candidate
list object: because the source copies the pool (`copy.copy(candidates)`,
line 161) before any `remove`, the only list the loop shrinks is the local
copy, and the caller-owned list object after the call is the unchanged input
list, returned here as the second component. -/
def doSelectionPoolEffect [DecidableEq ι]
    (selectFeats : π → σ → Except ε π) (cvRate : π → Except ε ℚ)
    (merge : σ → ι → σ) (break_crit : ℚ) (pattern : π)
    (selected : σ) (candidates : List ι) :
    Except ε (σ × List ι) × List ι :=
  (doSelection selectFeats cvRate merge break_crit pattern selected candidates,
   candidates)

/-- The fold loop of `__doCVSelection`, with the per-fold state made
explicit: the accumulated `self.__perfs` list (the source appends to it
through the `perfs` property), and the local `cv_features` and `cv_rois`
lists.  For each combination of excluded origins the full pattern is split
into `meta_train` and `meta_test` (`CrossValidation.splitTrainTestData`,
abstracted as `splitTT`), the greedy selection runs on `meta_train`, and
then — following line 139 of the source — the classifier is fitted on
`self.pattern.selectFeatures(selected_features)`, i.e. the FULL pattern
restricted to the selected features (not `meta_train`), and its predictions
on the restricted `meta_test` (`CrossValidation.getClassification`,
abstracted as `getCls`) are scored against `meta_test.reg`.  An exception
from any collaborator aborts the loop, leaving the accumulators in whatever
state they had reached. -/
def doCVSelectionAux [DecidableEq ι] [DecidableEq Λ]
    (splitTT : π → θ → Except ε (π × π))
    (selectFeats : π → σ → Except ε π) (cvRate : π → Except ε ℚ)
    (getCls : π → π → Except ε (List Λ)) (reg : π → List Λ)
    (merge : σ → ι → σ) (break_crit : ℚ) (pattern : π)
    (selected : σ) (candidates : List ι) :
    List θ → List ℚ → List σ → List (List ι) →
    List ℚ × Except ε (List σ × List (List ι))
  | [], perfs, cv_features, cv_rois => (perfs, .ok (cv_features, cv_rois))
  | exclude :: rest, perfs, cv_features, cv_rois =>
    match splitTT pattern exclude with
    | .error e => (perfs, .error e)
    | .ok (meta_train, meta_test) =>
      match doSelection selectFeats cvRate merge break_crit meta_train
          selected candidates with
      | .error e => (perfs, .error e)
      | .ok (selected_features, selected_rois) =>
        match selectFeats pattern selected_features with
        | .error e => (perfs, .error e)
        | .ok bestfeature_pat =>
          match selectFeats meta_test selected_features with
          | .error e => (perfs, .error e)
          | .ok test_pat =>
            match getCls bestfeature_pat test_pat with
            | .error e => (perfs, .error e)
            | .ok predictions =>
              doCVSelectionAux splitTT selectFeats cvRate getCls reg merge
                break_crit pattern selected candidates rest
                (perfs ++ [accuracy predictions (reg meta_test)])
                (cv_features ++ [selected_features])
                (cv_rois ++ [selected_rois])

/-- Variant of the fold loop following the words of the specification for
step (c) of the outer loop: "Restrict both meta-train and meta-test to the
features selected in step (b); fit the classifier on the restricted
meta-train".  It differs from `doCVSelectionAux` in exactly one place: the
fit set is `meta_train.selectFeatures(selected_features)` instead of
`self.pattern.selectFeatures(selected_features)`. -/
def doCVSelectionAuxSpec [DecidableEq ι] [DecidableEq Λ]
    (splitTT : π → θ → Except ε (π × π))
    (selectFeats : π → σ → Except ε π) (cvRate : π → Except ε ℚ)
    (getCls : π → π → Except ε (List Λ)) (reg : π → List Λ)
    (merge : σ → ι → σ) (break_crit : ℚ) (pattern : π)
    (selected : σ) (candidates : List ι) :
    List θ → List ℚ → List σ → List (List ι) →
    List ℚ × Except ε (List σ × List (List ι))
  | [], perfs, cv_features, cv_rois => (perfs, .ok (cv_features, cv_rois))
  | exclude :: rest, perfs, cv_features, cv_rois =>
    match splitTT pattern exclude with
    | .error e => (perfs, .error e)
    | .ok (meta_train, meta_test) =>
      match doSelection selectFeats cvRate merge break_crit meta_train
          selected candidates with
      | .error e => (perfs, .error e)
      | .ok (selected_features, selected_rois) =>
        match selectFeats meta_train selected_features with
        | .error e => (perfs, .error e)
        | .ok bestfeature_pat =>
          match selectFeats meta_test selected_features with
          | .error e => (perfs, .error e)
          | .ok test_pat =>
            match getCls bestfeature_pat test_pat with
            | .error e => (perfs, .error e)
            | .ok predictions =>
              doCVSelectionAuxSpec splitTT selectFeats cvRate getCls reg
                merge break_crit pattern selected candidates rest
                (perfs ++ [accuracy predictions (reg meta_test)])
                (cv_features ++ [selected_features])
                (cv_rois ++ [selected_rois])

/-- The state of an `IncrementalFeatureSearch` object: the
constructor-supplied configuration together with the result accumulators
(`__perfs`, `__selection_masks`, `__metacv_origins`).  Keyword passthrough
configuration for the cross-validation collaborator is folded into the
abstract `cvRate` collaborator. -/
structure IFS (π θ μ : Type) where
  pattern : π
  mask : NdMask
  cvtype : Nat
  metacvtype : Nat
  break_crit : ℚ
  perfs : List ℚ
  selection_masks : List μ
  metacv_origins : List θ
  deriving DecidableEq

/-- Constructor `IncrementalFeatureSearch.__init__`: stores the
configuration, raises `ValueError` when the mask shape differs from the
`origshape` of the pattern, and initializes the result accumulators empty
(`__clearResults`). -/
def init (origshape : π → List Nat) (pattern : π) (mask : NdMask)
    (cvtype metacvtype : Nat) (break_crit : ℚ) :
    Except String (IFS π θ μ) :=
  if mask.shape = origshape pattern then
    .ok { pattern := pattern, mask := mask, cvtype := cvtype,
          metacvtype := metacvtype, break_crit := break_crit,
          perfs := [], selection_masks := [], metacv_origins := [] }
  else
    .error "Mask shape has to match the pattern origshape."

/-- Method `__clearResults`: resets the three result accumulators to empty
lists. -/
def clearResults (s : IFS π θ μ) : IFS π θ μ :=
  { s with perfs := [], selection_masks := [], metacv_origins := [] }

/-- Method `__doCVSelection` as a state transformer on the search object:
stores the meta-fold partition
(`crossval.getUniqueLengthNCombinations(self.__pattern.originlabels,
self.__metacvtype)`, an external combinatorics helper abstracted as
`combos`) in `metacv_origins`, runs the fold loop threading `self.__perfs`,
and returns the per-fold selected sets and chosen-id lists, or the
propagated exception. -/
def doCVSelectionM [DecidableEq ι] [DecidableEq Λ]
    (combos : π → Nat → List θ)
    (splitTT : π → θ → Except ε (π × π))
    (selectFeats : π → σ → Except ε π) (cvRate : π → Except ε ℚ)
    (getCls : π → π → Except ε (List Λ)) (reg : π → List Λ)
    (s : IFS π θ μ) (merge : σ → ι → σ)
    (selected : σ) (candidates : List ι) :
    IFS π θ μ × Except ε (List σ × List (List ι)) :=
  let metacv_origins := combos s.pattern s.metacvtype
  let r := doCVSelectionAux splitTT selectFeats cvRate getCls reg
      merge s.break_crit s.pattern selected candidates metacv_origins
      s.perfs [] []
  ({ s with metacv_origins := metacv_origins, perfs := r.1 }, r.2)

/-- The feature-mode candidate pool built by `selectFeatures`: the dataset
feature id (`self.pattern.getFeatureId(coord)`, abstracted as
`getFeatureId`) of every nonzero mask element, in coordinate-scan order of
`np.transpose(self.mask.nonzero())`. -/
def featureCandidatePool (getFeatureId : Nat → ι) (mask : NdMask) :
    List ι :=
  (nonzeroIndices mask.data).map getFeatureId

/-- The ROI-mode candidate pool built by `selectROIs`:
`np.unique(self.mask).tolist()`, the sorted distinct mask values. -/
def roiCandidatePool (mask : NdMask) : List ℤ :=
  sortedUnique mask.data

/-- Method `selectFeatures`: clears prior results, builds the feature-id
candidate pool from the nonzero mask elements, runs the meta cross-validated
selection with the feature-id selector and the initially empty selected
list, stores the per-fold selection masks
(`self.pattern.features2origmask(f)`, abstracted as `f2origmask`) and
returns the per-fold selected-feature lists; the chosen-id component of
`__doCVSelection` is bound to `dummy` and discarded. -/
def selectFeaturesM [DecidableEq ι] [DecidableEq Λ]
    (combos : π → Nat → List θ)
    (splitTT : π → θ → Except ε (π × π))
    (selectFeats : π → List ι → Except ε π) (cvRate : π → Except ε ℚ)
    (getCls : π → π → Except ε (List Λ)) (reg : π → List Λ)
    (getFeatureId : Nat → ι) (f2origmask : List ι → μ)
    (s : IFS π θ μ) : IFS π θ μ × Except ε (List (List ι)) :=
  let s1 := clearResults s
  let cand_features := featureCandidatePool getFeatureId s1.mask
  match doCVSelectionM combos splitTT selectFeats cvRate getCls reg s1
      selectByFeatureId ([] : List ι) cand_features with
  | (s2, .error e) => (s2, .error e)
  | (s2, .ok (selected_features, _dummy)) =>
    ({ s2 with selection_masks := selected_features.map f2origmask },
     .ok selected_features)

/-- Method `selectROIs`: clears prior results, takes the sorted distinct
mask values as the candidate pool, initializes the selection to an all-false
boolean mask shaped like the stored mask
(`np.zeros(self.mask.shape, dtype=bool)`), runs the meta cross-validated
selection with the mask-value selector, stores the per-fold boolean masks
directly and returns the per-fold selected ROI values. -/
def selectROIsM [DecidableEq Λ]
    (combos : π → Nat → List θ)
    (splitTT : π → θ → Except ε (π × π))
    (selectFeats : π → List Bool → Except ε π) (cvRate : π → Except ε ℚ)
    (getCls : π → π → Except ε (List Λ)) (reg : π → List Λ)
    (s : IFS π θ (List Bool)) :
    IFS π θ (List Bool) × Except ε (List (List ℤ)) :=
  let s1 := clearResults s
  let mask_values := roiCandidatePool s1.mask
  let selected_features : List Bool :=
    List.replicate s1.mask.data.length false
  match doCVSelectionM combos splitTT selectFeats cvRate getCls reg s1
      (selectByMaskValue s1.mask) selected_features mask_values with
  | (s2, .error e) => (s2, .error e)
  | (s2, .ok (feature_mask, selected_rois)) =>
    ({ s2 with selection_masks := feature_mask }, .ok selected_rois)

/-- Method `getMeanSelectionMask`: `None` when no selection mask has been
stored, otherwise the element-wise mean of the stored masks
(`np.array(self.__selection_masks).mean(axis=0)`; stacking-and-averaging is
a numeric array primitive external to this core, abstracted as
`meanStack`). -/
def getMeanSelectionMask (meanStack : List μ → ν) (s : IFS π θ μ) :
    Option ν :=
  if s.selection_masks.length < 1 then none
  else some (meanStack s.selection_masks)

/-- The computation one meta-fold of `__doCVSelection` performs, as a
function of the shared call arguments and the excluded origin combination
alone: split the full pattern, run the greedy selection on the meta
training set, fit on the full pattern restricted to the selected features
(line 139 of the source), predict on the restricted meta test set and score
the predictions.  Returns the selected set, the chosen ids and the fold
accuracy. -/
def foldOutcome [DecidableEq ι] [DecidableEq Λ]
    (splitTT : π → θ → Except ε (π × π))
    (selectFeats : π → σ → Except ε π) (cvRate : π → Except ε ℚ)
    (getCls : π → π → Except ε (List Λ)) (reg : π → List Λ)
    (merge : σ → ι → σ) (break_crit : ℚ) (pattern : π)
    (selected : σ) (candidates : List ι) (exclude : θ) :
    Except ε (σ × List ι × ℚ) :=
  match splitTT pattern exclude with
  | .error e => .error e
  | .ok (meta_train, meta_test) =>
    match doSelection selectFeats cvRate merge break_crit meta_train
        selected candidates with
    | .error e => .error e
    | .ok (selected_features, selected_rois) =>
      match selectFeats pattern selected_features with
      | .error e => .error e
      | .ok bestfeature_pat =>
        match selectFeats meta_test selected_features with
        | .error e => .error e
        | .ok test_pat =>
          match getCls bestfeature_pat test_pat with
          | .error e => .error e
          | .ok predictions =>
            .ok (selected_features, selected_rois,
                 accuracy predictions (reg meta_test))

/-! ### A small concrete scenario used to evaluate the embedding

The dataset collaborator is instantiated with plain label lists: the full
pattern is `[0, 1]` (sample 0 with origin 0 and label 0, sample 1 with
origin 1 and label 1). -/

/-- Concrete meta-fold enumeration: one fold, excluding origin 0. -/
def exCombos (p : List ℤ) (n : Nat) : List Nat := [0]

/-- Concrete meta-fold enumeration with two folds. -/
def exCombos2 (p : List ℤ) (n : Nat) : List Nat := [0, 1]

/-- Concrete split: meta training set holds the origin-1 sample, meta test
set the origin-0 sample. -/
def exSplitTT (p : List ℤ) (x : Nat) : Except String (List ℤ × List ℤ) :=
  .ok ([1], [0])

/-- Concrete split that raises on every fold after the first. -/
def exSplitTTfail (p : List ℤ) (x : Nat) :
    Except String (List ℤ × List ℤ) :=
  if x = 0 then .ok ([1], [0]) else .error "boom"

/-- Concrete feature-mode restriction: the restricted dataset is the list
of selected feature ids. -/
def exSelectFeats (p : List ℤ) (fs : List Nat) :
    Except String (List ℤ) :=
  .ok (fs.map Int.ofNat)

/-- Concrete feature-mode restriction that keeps the dataset unchanged. -/
def exSelectFeatsId (p : List ℤ) (fs : List Nat) :
    Except String (List ℤ) :=
  .ok p

/-- Concrete ROI-mode restriction that keeps the dataset unchanged. -/
def exSelectFeatsR (p : List ℤ) (sel : List Bool) :
    Except String (List ℤ) :=
  .ok p

/-- Concrete inner cross-validation rating: the size of the restricted
dataset. -/
def exCvRate (q : List ℤ) : Except String ℚ := .ok (q.length : ℚ)

/-- Concrete inner cross-validation rating: constant 1. -/
def exCvRateR (q : List ℤ) : Except String ℚ := .ok 1

/-- Concrete classifier that always predicts label 0. -/
def exGetCls (tr te : List ℤ) : Except String (List ℤ) := .ok [0]

/-- Concrete classifier whose prediction depends on the training set: it
predicts 0 exactly when label 0 occurs among the training samples. -/
def exGetClsMem (tr te : List ℤ) : Except String (List ℤ) :=
  .ok (te.map (fun x => if (0 : ℤ) ∈ tr then 0 else 1))

/-- Concrete per-sample labels. -/
def exReg (p : List ℤ) : List ℤ := p

/-- Concrete feature-mode search state: two nonzero mask elements. -/
def exStateF : IFS (List ℤ) Nat (List Nat) :=
  { pattern := [0, 1], mask := ⟨[2], [5, 7]⟩, cvtype := 1,
    metacvtype := 1, break_crit := 1 / 1000, perfs := [],
    selection_masks := [], metacv_origins := [] }

/-- Concrete feature-mode search state with an all-zero mask (empty
candidate pool). -/
def exStateF0 : IFS (List ℤ) Nat (List Nat) :=
  { pattern := [0, 1], mask := ⟨[1], [0]⟩, cvtype := 1,
    metacvtype := 1, break_crit := 1 / 1000, perfs := [],
    selection_masks := [], metacv_origins := [] }

/-- Concrete ROI-mode search state: one region with mask value 4. -/
def exStateR : IFS (List ℤ) Nat (List Bool) :=
  { pattern := [0, 1], mask := ⟨[1], [4]⟩, cvtype := 1,
    metacvtype := 1, break_crit := 1 / 1000, perfs := [],
    selection_masks := [], metacv_origins := [] }

/-- Concrete ROI-mode search state with an empty mask array (empty
candidate pool). -/
def exStateR0 : IFS (List ℤ) Nat (List Bool) :=
  { pattern := [0, 1], mask := ⟨[0], []⟩, cvtype := 1,
    metacvtype := 1, break_crit := 1 / 1000, perfs := [],
    selection_masks := [], metacv_origins := [] }

/-! ### Properties of `listMax` and `idxOfMax` -/

/-- An element fetched with a default that belongs to the list is itself a
member of the list. -/
lemma getD_mem_of_mem (l : List α) (i : Nat) {d : α} (hd : d ∈ l) :
    l.getD i d ∈ l := by
  rcases Nat.lt_or_ge i l.length with h | h
  · rw [List.getD_eq_getElem?_getD, List.getElem?_eq_getElem h]
    exact List.getElem_mem h
  · rw [List.getD_eq_getElem?_getD, List.getElem?_eq_none h]
    exact hd


/-- Every member of a list is bounded by its maximum. -/
theorem le_listMax : ∀ {l : List ℚ}, a ∈ l → a ≤ listMax l
  | [x], h => by
    rcases List.mem_singleton.mp h with rfl
    simp [listMax]
  | x :: y :: ys, h => by
    rcases List.mem_cons.mp h with rfl | h2
    · simp [listMax]
    · calc a ≤ listMax (y :: ys) := le_listMax h2
        _ ≤ max x (listMax (y :: ys)) := le_max_right _ _
        _ = listMax (x :: y :: ys) := by simp [listMax]

/-- The index returned by `idxOfMax` is in range for a nonempty list. -/
theorem idxOfMax_lt_length : ∀ {l : List ℚ}, l ≠ [] → idxOfMax l < l.length
  | [_], _ => by simp [idxOfMax]
  | x :: y :: ys, _ => by
    by_cases h : listMax (y :: ys) ≤ x
    · simp [idxOfMax, h]
    · have ih := idxOfMax_lt_length (l := y :: ys) (by simp)
      simp only [List.length_cons] at ih
      simp only [idxOfMax, if_neg h, List.length_cons]
      omega

/-- The entry at the `idxOfMax` position is the maximum. -/
theorem getD_idxOfMax : ∀ {l : List ℚ}, l ≠ [] →
    l.getD (idxOfMax l) 0 = listMax l
  | [x], _ => by simp [idxOfMax, listMax]
  | x :: y :: ys, _ => by
    by_cases h : listMax (y :: ys) ≤ x
    · simp [idxOfMax, listMax, h, max_eq_left h]
    · have ih := getD_idxOfMax (l := y :: ys) (by simp)
      have hx : x ≤ listMax (y :: ys) := le_of_not_le h
      simp only [idxOfMax, if_neg h, listMax]
      rw [max_eq_right hx]
      simpa using ih

/-- Entries strictly before the `idxOfMax` position are strictly below the
maximum: `idxOfMax` is the FIRST maximal index, as `numpy.argmax`. -/
theorem getD_lt_of_lt_idxOfMax : ∀ {l : List ℚ} {k : Nat},
    k < idxOfMax l → l.getD k 0 < listMax l
  | [_], k, hk => by simp [idxOfMax] at hk
  | x :: y :: ys, k, hk => by
    by_cases h : listMax (y :: ys) ≤ x
    · simp [idxOfMax, h] at hk
    · have hx : x < listMax (y :: ys) := lt_of_not_le h
      simp only [idxOfMax, if_neg h] at hk
      match k with
      | 0 =>
        simpa [listMax, max_eq_right hx.le] using hx
      | Nat.succ j =>
        have ih := getD_lt_of_lt_idxOfMax (l := y :: ys) (k := j) (by omega)
        simp only [listMax, max_eq_right hx.le]
        simpa using ih

/-! ### Properties of `mapExcept` -/

/-- A successful `mapExcept` preserves the length. -/
theorem mapExcept_ok_length {f : α → Except ε β} :
    ∀ {l : List α} {ys : List β}, mapExcept f l = .ok ys →
      ys.length = l.length
  | [], ys, h => by
    simp only [mapExcept, Except.ok.injEq] at h
    simp [← h]
  | x :: xs, ys, h => by
    simp only [mapExcept] at h
    match hfx : f x with
    | .error e => rw [hfx] at h; exact absurd h (by simp)
    | .ok y =>
      rw [hfx] at h
      match hxs : mapExcept f xs with
      | .error e => rw [hxs] at h; exact absurd h (by simp)
      | .ok ys0 =>
        rw [hxs] at h
        have ih := mapExcept_ok_length hxs
        simp only [Except.ok.injEq] at h
        simp [← h, ih]

/-- On success, the `k`-th output of `mapExcept` is the value of `f` at the
`k`-th input. -/
theorem mapExcept_ok_getD {f : α → Except ε β} :
    ∀ {l : List α} {ys : List β}, mapExcept f l = .ok ys →
      ∀ k, k < l.length → ∀ (d : α) (d2 : β),
        f (l.getD k d) = .ok (ys.getD k d2)
  | [], ys, h => by simp
  | x :: xs, ys, h => by
    simp only [mapExcept] at h
    match hfx : f x with
    | .error e => rw [hfx] at h; exact absurd h (by simp)
    | .ok y =>
      rw [hfx] at h
      match hxs : mapExcept f xs with
      | .error e => rw [hxs] at h; exact absurd h (by simp)
      | .ok ys0 =>
        rw [hxs] at h
        simp only [Except.ok.injEq] at h
        intro k hk d d2
        match k with
        | 0 => simp [← h, hfx]
        | Nat.succ j =>
          have ih := mapExcept_ok_getD hxs j (by simpa using hk) d d2
          simpa [← h] using ih

/-- A failing `mapExcept` fails at the value of `f` on some list element. -/
theorem mapExcept_error {f : α → Except ε β} :
    ∀ {l : List α} {e : ε}, mapExcept f l = .error e →
      ∃ x ∈ l, f x = .error e
  | [], e, h => by simp [mapExcept] at h
  | x :: xs, e, h => by
    simp only [mapExcept] at h
    match hfx : f x with
    | .error e0 =>
      rw [hfx] at h
      simp only [Except.error.injEq] at h
      exact ⟨x, by simp, by rw [hfx, h]⟩
    | .ok y =>
      rw [hfx] at h
      match hxs : mapExcept f xs with
      | .error e0 =>
        rw [hxs] at h
        simp only [Except.error.injEq] at h
        obtain ⟨z, hz, hfz⟩ := mapExcept_error (by rw [hxs, h])
        exact ⟨z, by simp [hz], hfz⟩
      | .ok ys0 => rw [hxs] at h; exact absurd h (by simp)

/-! ### Invariants of the greedy selection loop -/

/-- On success, the chosen ids and the remaining local pool together account
exactly for the initial accumulator and pool: each accepted round removes
exactly one candidate from the local pool. -/
theorem doSelectionLoop_ok_length [DecidableEq ι] {merge : σ → ι → σ}
    {rateSel : σ → Except ε ℚ} {break_crit : ℚ} :
    ∀ (selected : σ) (bp : ℚ) (acc pool : List ι) {s : σ}
      {ids rest : List ι},
      doSelectionLoop merge rateSel break_crit selected bp acc pool =
        .ok (s, ids, rest) →
      ids.length + rest.length = acc.length + pool.length
  | selected, bp, acc, [], s, ids, rest => by
    intro h
    rw [doSelectionLoop] at h
    simp only [Except.ok.injEq, Prod.mk.injEq] at h
    obtain ⟨-, h2, h3⟩ := h
    simp [← h2, ← h3]
  | selected, bp, acc, c :: cs, s, ids, rest => by
    intro h
    rw [doSelectionLoop] at h
    match hmr : mapExcept (fun cand => rateSel (merge selected cand))
        (c :: cs) with
    | .error e => rw [hmr] at h; exact absurd h (by simp)
    | .ok candidate_rating =>
      rw [hmr] at h
      simp only at h
      by_cases hc : listMax candidate_rating - bp < break_crit
      · rw [if_pos hc] at h
        simp only [Except.ok.injEq, Prod.mk.injEq] at h
        obtain ⟨-, h2, h3⟩ := h
        simp [← h2, ← h3]
      · rw [if_neg hc] at h
        have hmem : (c :: cs).getD (idxOfMax candidate_rating) c ∈ c :: cs :=
          getD_mem_of_mem _ _ (List.mem_cons_self c cs)
        have ih := doSelectionLoop_ok_length
          (merge selected ((c :: cs).getD (idxOfMax candidate_rating) c))
          (listMax candidate_rating)
          (acc ++ [(c :: cs).getD (idxOfMax candidate_rating) c])
          ((c :: cs).erase ((c :: cs).getD (idxOfMax candidate_rating) c)) h
        rw [List.length_erase_of_mem hmem] at ih
        simp only [List.length_append, List.length_cons,
          List.length_nil] at ih ⊢
        omega
  termination_by _ _ _ pool => pool.length
  decreasing_by
    have hmem : (c :: cs).getD (idxOfMax candidate_rating) c ∈ c :: cs :=
      getD_mem_of_mem _ _ (List.mem_cons_self c cs)
    rw [List.length_erase_of_mem hmem]
    simp

/-- On success, if the accumulated chosen ids and the pool are jointly
duplicate-free then so are the returned chosen ids and remaining pool:
every accepted candidate is removed from the local pool, so it can never be
chosen again. -/
theorem doSelectionLoop_ok_nodup [DecidableEq ι] {merge : σ → ι → σ}
    {rateSel : σ → Except ε ℚ} {break_crit : ℚ} :
    ∀ (selected : σ) (bp : ℚ) (acc pool : List ι) {s : σ}
      {ids rest : List ι},
      (acc ++ pool).Nodup →
      doSelectionLoop merge rateSel break_crit selected bp acc pool =
        .ok (s, ids, rest) →
      (ids ++ rest).Nodup
  | selected, bp, acc, [], s, ids, rest => by
    intro hnd h
    rw [doSelectionLoop] at h
    simp only [Except.ok.injEq, Prod.mk.injEq] at h
    obtain ⟨-, h2, h3⟩ := h
    rw [← h2, ← h3]
    exact hnd
  | selected, bp, acc, c :: cs, s, ids, rest => by
    intro hnd h
    rw [doSelectionLoop] at h
    match hmr : mapExcept (fun cand => rateSel (merge selected cand))
        (c :: cs) with
    | .error e => rw [hmr] at h; exact absurd h (by simp)
    | .ok candidate_rating =>
      rw [hmr] at h
      simp only at h
      by_cases hc : listMax candidate_rating - bp < break_crit
      · rw [if_pos hc] at h
        simp only [Except.ok.injEq, Prod.mk.injEq] at h
        obtain ⟨-, h2, h3⟩ := h
        rw [← h2, ← h3]
        exact hnd
      · rw [if_neg hc] at h
        have hmem : (c :: cs).getD (idxOfMax candidate_rating) c ∈ c :: cs :=
          getD_mem_of_mem _ _ (List.mem_cons_self c cs)
        have hperm : List.Perm (acc ++ c :: cs)
            ((acc ++ [(c :: cs).getD (idxOfMax candidate_rating) c]) ++
              (c :: cs).erase
                ((c :: cs).getD (idxOfMax candidate_rating) c)) := by
          rw [List.append_assoc, List.singleton_append]
          exact List.Perm.append_left acc (List.perm_cons_erase hmem)
        exact doSelectionLoop_ok_nodup
          (merge selected ((c :: cs).getD (idxOfMax candidate_rating) c))
          (listMax candidate_rating)
          (acc ++ [(c :: cs).getD (idxOfMax candidate_rating) c])
          ((c :: cs).erase ((c :: cs).getD (idxOfMax candidate_rating) c))
          (hperm.nodup hnd) h
  termination_by _ _ _ pool => pool.length
  decreasing_by
    have hmem : (c :: cs).getD (idxOfMax candidate_rating) c ∈ c :: cs :=
      getD_mem_of_mem _ _ (List.mem_cons_self c cs)
    rw [List.length_erase_of_mem hmem]
    simp

/-- With the feature-id selector, the final selected list extends the
initial one by exactly the chosen ids, in order: running from the empty
initial selection, the final selected set IS the chosen-id list. -/
theorem doSelectionLoop_featureId_selected [DecidableEq ι]
    {rateSel : List ι → Except ε ℚ} {break_crit : ℚ} :
    ∀ (selected : List ι) (bp : ℚ) (acc pool : List ι) {s : List ι}
      {ids rest : List ι},
      doSelectionLoop selectByFeatureId rateSel break_crit selected bp acc
        pool = .ok (s, ids, rest) →
      ∃ t, ids = acc ++ t ∧ s = selected ++ t
  | selected, bp, acc, [], s, ids, rest => by
    intro h
    rw [doSelectionLoop] at h
    simp only [Except.ok.injEq, Prod.mk.injEq] at h
    obtain ⟨h1, h2, -⟩ := h
    exact ⟨[], by simp [← h1, ← h2]⟩
  | selected, bp, acc, c :: cs, s, ids, rest => by
    intro h
    rw [doSelectionLoop] at h
    match hmr : mapExcept (fun cand => rateSel (selectByFeatureId selected
        cand)) (c :: cs) with
    | .error e => rw [hmr] at h; exact absurd h (by simp)
    | .ok candidate_rating =>
      rw [hmr] at h
      simp only at h
      by_cases hc : listMax candidate_rating - bp < break_crit
      · rw [if_pos hc] at h
        simp only [Except.ok.injEq, Prod.mk.injEq] at h
        obtain ⟨h1, h2, -⟩ := h
        exact ⟨[], by simp [← h1, ← h2]⟩
      · rw [if_neg hc] at h
        obtain ⟨t, ht1, ht2⟩ := doSelectionLoop_featureId_selected
          (selectByFeatureId selected
            ((c :: cs).getD (idxOfMax candidate_rating) c))
          (listMax candidate_rating)
          (acc ++ [(c :: cs).getD (idxOfMax candidate_rating) c])
          ((c :: cs).erase ((c :: cs).getD (idxOfMax candidate_rating) c)) h
        refine ⟨(c :: cs).getD (idxOfMax candidate_rating) c :: t, ?_, ?_⟩
        · rw [ht1]; simp
        · rw [ht2]; simp [selectByFeatureId]
  termination_by _ _ _ pool => pool.length
  decreasing_by
    have hmem : (c :: cs).getD (idxOfMax candidate_rating) c ∈ c :: cs :=
      getD_mem_of_mem _ _ (List.mem_cons_self c cs)
    rw [List.length_erase_of_mem hmem]
    simp

/-- A failing selection loop fails inside rating some trial selection: the
raised exception comes from a collaborator, unmodified. -/
theorem doSelectionLoop_error [DecidableEq ι] {merge : σ → ι → σ}
    {rateSel : σ → Except ε ℚ} {break_crit : ℚ} :
    ∀ (selected : σ) (bp : ℚ) (acc pool : List ι) {e : ε},
      doSelectionLoop merge rateSel break_crit selected bp acc pool =
        .error e →
      ∃ t : σ, rateSel t = .error e
  | selected, bp, acc, [], e => by
    intro h
    rw [doSelectionLoop] at h
    exact absurd h (by simp)
  | selected, bp, acc, c :: cs, e => by
    intro h
    rw [doSelectionLoop] at h
    match hmr : mapExcept (fun cand => rateSel (merge selected cand))
        (c :: cs) with
    | .error e0 =>
      rw [hmr] at h
      simp only [Except.error.injEq] at h
      obtain ⟨x, -, hfx⟩ := mapExcept_error (by rw [hmr, h])
      exact ⟨merge selected x, hfx⟩
    | .ok candidate_rating =>
      rw [hmr] at h
      simp only at h
      by_cases hc : listMax candidate_rating - bp < break_crit
      · rw [if_pos hc] at h; exact absurd h (by simp)
      · rw [if_neg hc] at h
        exact doSelectionLoop_error
          (merge selected ((c :: cs).getD (idxOfMax candidate_rating) c))
          (listMax candidate_rating)
          (acc ++ [(c :: cs).getD (idxOfMax candidate_rating) c])
          ((c :: cs).erase ((c :: cs).getD (idxOfMax candidate_rating) c)) h
  termination_by _ _ _ pool => pool.length
  decreasing_by
    have hmem : (c :: cs).getD (idxOfMax candidate_rating) c ∈ c :: cs :=
      getD_mem_of_mem _ _ (List.mem_cons_self c cs)
    rw [List.length_erase_of_mem hmem]
    simp

/-- The greedy loop agrees with its fuel-indexed evaluator whenever the
fuel bounds the pool size. -/
theorem doSelectionLoop_eq_fuel [DecidableEq ι] {merge : σ → ι → σ}
    {rateSel : σ → Except ε ℚ} {break_crit : ℚ} :
    ∀ (fuel : Nat) (selected : σ) (bp : ℚ) (acc pool : List ι),
      pool.length ≤ fuel →
      doSelectionLoop merge rateSel break_crit selected bp acc pool =
        doSelectionLoopFuel merge rateSel break_crit fuel selected bp acc
          pool
  | fuel, selected, bp, acc, [] => by
    intro hf
    rw [doSelectionLoop]
    cases fuel <;> simp [doSelectionLoopFuel]
  | fuel, selected, bp, acc, c :: cs => by
    intro hf
    match fuel with
    | 0 => simp at hf
    | f + 1 =>
      rw [doSelectionLoop]
      conv_rhs => rw [doSelectionLoopFuel]
      match hmr : mapExcept (fun cand => rateSel (merge selected cand))
          (c :: cs) with
      | .error e => rfl
      | .ok candidate_rating =>
        simp only
        by_cases hc : listMax candidate_rating - bp < break_crit
        · rw [if_pos hc, if_pos hc]
        · rw [if_neg hc, if_neg hc]
          have hmem : (c :: cs).getD (idxOfMax candidate_rating) c ∈
              c :: cs :=
            getD_mem_of_mem _ _ (List.mem_cons_self c cs)
          apply doSelectionLoop_eq_fuel f
          rw [List.length_erase_of_mem hmem]
          simp only [List.length_cons] at hf ⊢
          omega
  termination_by _ _ _ _ pool => pool.length
  decreasing_by
    have hmem : (c :: cs).getD (idxOfMax candidate_rating) c ∈ c :: cs :=
      getD_mem_of_mem _ _ (List.mem_cons_self c cs)
    rw [List.length_erase_of_mem hmem]
    simp

/-- The greedy selection of an empty candidate pool returns the initial
selection and an empty chosen list at once. -/
theorem doSelection_nil [DecidableEq ι]
    (selectFeats : π → σ → Except ε π) (cvRate : π → Except ε ℚ)
    (merge : σ → ι → σ) (break_crit : ℚ) (pattern : π) (selected : σ) :
    doSelection selectFeats cvRate merge break_crit pattern selected
      ([] : List ι) = .ok (selected, []) := by
  unfold doSelection
  rw [doSelectionLoop]

/-- Method `__doSelection` rewritten through the fuel-indexed evaluator, for
computing concrete runs. -/
theorem doSelection_eq_fuelLoop [DecidableEq ι]
    (selectFeats : π → σ → Except ε π) (cvRate : π → Except ε ℚ)
    (merge : σ → ι → σ) (break_crit : ℚ) (pattern : π) (selected : σ)
    (candidates : List ι) :
    doSelection selectFeats cvRate merge break_crit pattern selected
        candidates =
      match doSelectionLoopFuel merge
          (fun s => match selectFeats pattern s with
            | .error e => .error e
            | .ok temp_pat => cvRate temp_pat)
          break_crit candidates.length selected 0 [] candidates with
      | .error e => .error e
      | .ok (sel, best_ids, _) => .ok (sel, best_ids) := by
  unfold doSelection
  rw [doSelectionLoop_eq_fuel candidates.length selected 0 [] candidates
    (le_refl _)]

/-! ### Properties of the outer (meta) cross-validation loop -/

/-- On success, the fold loop of `__doCVSelection` is exactly one
independent `foldOutcome` per excluded origin combination, in enumeration
order, each starting from the same shared `selected` and `candidates`; the
accuracy, selected-set and chosen-id accumulators are extended by the
per-fold results in order. -/
theorem doCVSelectionAux_ok [DecidableEq ι] [DecidableEq Λ]
    {splitTT : π → θ → Except ε (π × π)}
    {selectFeats : π → σ → Except ε π} {cvRate : π → Except ε ℚ}
    {getCls : π → π → Except ε (List Λ)} {reg : π → List Λ}
    {merge : σ → ι → σ} {break_crit : ℚ} {pattern : π}
    {selected : σ} {candidates : List ι} :
    ∀ (folds : List θ) (perfs : List ℚ) (cvF : List σ)
      (cvR : List (List ι)) {p2 : List ℚ} {F : List σ}
      {R : List (List ι)},
      doCVSelectionAux splitTT selectFeats cvRate getCls reg merge
        break_crit pattern selected candidates folds perfs cvF cvR =
        (p2, .ok (F, R)) →
      ∃ outs : List (σ × List ι × ℚ),
        List.Forall₂ (fun x o => foldOutcome splitTT selectFeats cvRate
          getCls reg merge break_crit pattern selected candidates x =
            .ok o) folds outs ∧
        p2 = perfs ++ outs.map (fun o => o.2.2) ∧
        F = cvF ++ outs.map (fun o => o.1) ∧
        R = cvR ++ outs.map (fun o => o.2.1)
  | [], perfs, cvF, cvR => by
    intro h
    simp only [doCVSelectionAux, Prod.mk.injEq, Except.ok.injEq] at h
    obtain ⟨h1, h2, h3⟩ := h
    exact ⟨[], List.Forall₂.nil, by simp [← h1, ← h2, ← h3]⟩
  | exclude :: rest, perfs, cvF, cvR => by
    intro h
    simp only [doCVSelectionAux] at h
    match hs : splitTT pattern exclude with
    | .error e => rw [hs] at h; exact absurd h (by simp)
    | .ok (meta_train, meta_test) =>
      rw [hs] at h
      simp only at h
      match hd : doSelection selectFeats cvRate merge break_crit meta_train
          selected candidates with
      | .error e => rw [hd] at h; exact absurd h (by simp)
      | .ok (selected_features, selected_rois) =>
        rw [hd] at h
        simp only at h
        match hb : selectFeats pattern selected_features with
        | .error e => rw [hb] at h; exact absurd h (by simp)
        | .ok bestfeature_pat =>
          rw [hb] at h
          simp only at h
          match ht : selectFeats meta_test selected_features with
          | .error e => rw [ht] at h; exact absurd h (by simp)
          | .ok test_pat =>
            rw [ht] at h
            simp only at h
            match hg : getCls bestfeature_pat test_pat with
            | .error e => rw [hg] at h; exact absurd h (by simp)
            | .ok predictions =>
              rw [hg] at h
              simp only at h
              obtain ⟨outs, hall, hp, hF, hR⟩ := doCVSelectionAux_ok rest
                (perfs ++ [accuracy predictions (reg meta_test)])
                (cvF ++ [selected_features]) (cvR ++ [selected_rois]) h
              refine ⟨(selected_features, selected_rois,
                accuracy predictions (reg meta_test)) :: outs,
                List.Forall₂.cons ?_ hall, ?_, ?_, ?_⟩
              · simp [foldOutcome, hs, hd, hb, ht, hg]
              · simpa using hp
              · simpa using hF
              · simpa using hR

/-- A failing fold loop of `__doCVSelection` splits the fold enumeration
into a prefix of folds that completed — whose accuracies extend the
accuracy accumulator, in enumeration order — followed by the failing fold,
whose own outcome is exactly the propagated error. -/
theorem doCVSelectionAux_error_split [DecidableEq ι] [DecidableEq Λ]
    {splitTT : π → θ → Except ε (π × π)}
    {selectFeats : π → σ → Except ε π} {cvRate : π → Except ε ℚ}
    {getCls : π → π → Except ε (List Λ)} {reg : π → List Λ}
    {merge : σ → ι → σ} {break_crit : ℚ} {pattern : π}
    {selected : σ} {candidates : List ι} :
    ∀ (folds : List θ) (perfs : List ℚ) (cvF : List σ)
      (cvR : List (List ι)) {p2 : List ℚ} {e : ε},
      doCVSelectionAux splitTT selectFeats cvRate getCls reg merge
        break_crit pattern selected candidates folds perfs cvF cvR =
        (p2, .error e) →
      ∃ (folds1 : List θ) (x : θ) (folds2 : List θ)
        (outs : List (σ × List ι × ℚ)),
        folds = folds1 ++ x :: folds2 ∧
        List.Forall₂ (fun y o => foldOutcome splitTT selectFeats cvRate
          getCls reg merge break_crit pattern selected candidates y =
            .ok o) folds1 outs ∧
        p2 = perfs ++ outs.map (fun o => o.2.2) ∧
        foldOutcome splitTT selectFeats cvRate getCls reg merge break_crit
          pattern selected candidates x = .error e
  | [], perfs, cvF, cvR => by
    intro h
    simp [doCVSelectionAux] at h
  | exclude :: rest, perfs, cvF, cvR => by
    intro h
    simp only [doCVSelectionAux] at h
    match hs : splitTT pattern exclude with
    | .error e0 =>
      rw [hs] at h
      simp only [Prod.mk.injEq, Except.error.injEq] at h
      obtain ⟨h1, h2⟩ := h
      exact ⟨[], exclude, rest, [], rfl, List.Forall₂.nil, by simp [← h1],
        by simp [foldOutcome, hs, h2]⟩
    | .ok (meta_train, meta_test) =>
      rw [hs] at h
      simp only at h
      match hd : doSelection selectFeats cvRate merge break_crit meta_train
          selected candidates with
      | .error e0 =>
        rw [hd] at h
        simp only [Prod.mk.injEq, Except.error.injEq] at h
        obtain ⟨h1, h2⟩ := h
        exact ⟨[], exclude, rest, [], rfl, List.Forall₂.nil,
          by simp [← h1], by simp [foldOutcome, hs, hd, h2]⟩
      | .ok (selected_features, selected_rois) =>
        rw [hd] at h
        simp only at h
        match hb : selectFeats pattern selected_features with
        | .error e0 =>
          rw [hb] at h
          simp only [Prod.mk.injEq, Except.error.injEq] at h
          obtain ⟨h1, h2⟩ := h
          exact ⟨[], exclude, rest, [], rfl, List.Forall₂.nil,
            by simp [← h1], by simp [foldOutcome, hs, hd, hb, h2]⟩
        | .ok bestfeature_pat =>
          rw [hb] at h
          simp only at h
          match ht : selectFeats meta_test selected_features with
          | .error e0 =>
            rw [ht] at h
            simp only [Prod.mk.injEq, Except.error.injEq] at h
            obtain ⟨h1, h2⟩ := h
            exact ⟨[], exclude, rest, [], rfl, List.Forall₂.nil,
              by simp [← h1], by simp [foldOutcome, hs, hd, hb, ht, h2]⟩
          | .ok test_pat =>
            rw [ht] at h
            simp only at h
            match hg : getCls bestfeature_pat test_pat with
            | .error e0 =>
              rw [hg] at h
              simp only [Prod.mk.injEq, Except.error.injEq] at h
              obtain ⟨h1, h2⟩ := h
              exact ⟨[], exclude, rest, [], rfl, List.Forall₂.nil,
                by simp [← h1],
                by simp [foldOutcome, hs, hd, hb, ht, hg, h2]⟩
            | .ok predictions =>
              rw [hg] at h
              simp only at h
              obtain ⟨folds1, x, folds2, outs, hsplit, hall, hp, hx⟩ :=
                doCVSelectionAux_error_split rest
                  (perfs ++ [accuracy predictions (reg meta_test)])
                  (cvF ++ [selected_features]) (cvR ++ [selected_rois]) h
              refine ⟨exclude :: folds1, x, folds2,
                (selected_features, selected_rois,
                  accuracy predictions (reg meta_test)) :: outs,
                by simp [hsplit], List.Forall₂.cons ?_ hall, ?_, hx⟩
              · simp [foldOutcome, hs, hd, hb, ht, hg]
              · simpa using hp

/-- The accuracy accumulator only ever grows: the fold loop returns the
input `perfs` extended by at most one entry per fold, whether it succeeds
or aborts with an exception. -/
theorem doCVSelectionAux_perfs [DecidableEq ι] [DecidableEq Λ]
    (splitTT : π → θ → Except ε (π × π))
    (selectFeats : π → σ → Except ε π) (cvRate : π → Except ε ℚ)
    (getCls : π → π → Except ε (List Λ)) (reg : π → List Λ)
    (merge : σ → ι → σ) (break_crit : ℚ) (pattern : π)
    (selected : σ) (candidates : List ι) :
    ∀ (folds : List θ) (perfs : List ℚ) (cvF : List σ)
      (cvR : List (List ι)),
      ∃ l : List ℚ,
        (doCVSelectionAux splitTT selectFeats cvRate getCls reg merge
          break_crit pattern selected candidates folds perfs cvF cvR).1 =
          perfs ++ l ∧
        l.length ≤ folds.length
  | [], perfs, cvF, cvR => ⟨[], by simp [doCVSelectionAux], by simp⟩
  | exclude :: rest, perfs, cvF, cvR => by
    simp only [doCVSelectionAux]
    match hs : splitTT pattern exclude with
    | .error e => exact ⟨[], by simp [hs], by simp⟩
    | .ok (meta_train, meta_test) =>
      match hd : doSelection selectFeats cvRate merge break_crit meta_train
          selected candidates with
      | .error e => exact ⟨[], by simp [hs, hd], by simp⟩
      | .ok (selected_features, selected_rois) =>
        match hb : selectFeats pattern selected_features with
        | .error e => exact ⟨[], by simp [hs, hd, hb], by simp⟩
        | .ok bestfeature_pat =>
          match ht : selectFeats meta_test selected_features with
          | .error e => exact ⟨[], by simp [hs, hd, hb, ht], by simp⟩
          | .ok test_pat =>
            match hg : getCls bestfeature_pat test_pat with
            | .error e => exact ⟨[], by simp [hs, hd, hb, ht, hg], by simp⟩
            | .ok predictions =>
              obtain ⟨l, hl, hlen⟩ := doCVSelectionAux_perfs splitTT
                selectFeats cvRate getCls reg merge break_crit pattern
                selected candidates rest
                (perfs ++ [accuracy predictions (reg meta_test)])
                (cvF ++ [selected_features]) (cvR ++ [selected_rois])
              exact ⟨accuracy predictions (reg meta_test) :: l,
                by simpa [hd, hb, ht, hg] using hl,
                by simpa using Nat.succ_le_succ hlen⟩

/-- A failing `__doSelection` call fails inside a dataset sub-selection or
inside the inner cross-validation: the exception value is produced by a
collaborator and reaches the caller unmodified. -/
theorem doSelection_error [DecidableEq ι] {selectFeats : π → σ → Except ε π}
    {cvRate : π → Except ε ℚ} {merge : σ → ι → σ} {break_crit : ℚ}
    {pattern : π} {selected : σ} {candidates : List ι} {e : ε}
    (h : doSelection selectFeats cvRate merge break_crit pattern selected
      candidates = .error e) :
    (∃ t, selectFeats pattern t = .error e) ∨
      (∃ p, cvRate p = .error e) := by
  unfold doSelection at h
  match hl : doSelectionLoop merge
      (fun s => match selectFeats pattern s with
        | .error e => .error e
        | .ok temp_pat => cvRate temp_pat)
      break_crit selected 0 [] candidates with
  | .ok r =>
    obtain ⟨s1, ids1, rest1⟩ := r
    rw [hl] at h
    exact absurd h (by simp)
  | .error e0 =>
    rw [hl] at h
    simp only [Except.error.injEq] at h
    obtain ⟨t, hte⟩ := doSelectionLoop_error _ _ _ _ hl
    match hsf : selectFeats pattern t with
    | .error e1 =>
      rw [hsf] at hte
      simp only [Except.error.injEq] at hte
      exact Or.inl ⟨t, by rw [hsf, hte, h]⟩
    | .ok tp =>
      rw [hsf] at hte
      simp only at hte
      exact Or.inr ⟨tp, by rw [hte, h]⟩

/-- A failing fold loop of `__doCVSelection` fails inside one of the
collaborator calls — data splitting, dataset sub-selection, inner
cross-validation, or classifier fit/predict — and the exception value
reaches the caller unmodified. -/
theorem doCVSelectionAux_error [DecidableEq ι] [DecidableEq Λ]
    {splitTT : π → θ → Except ε (π × π)}
    {selectFeats : π → σ → Except ε π} {cvRate : π → Except ε ℚ}
    {getCls : π → π → Except ε (List Λ)} {reg : π → List Λ}
    {merge : σ → ι → σ} {break_crit : ℚ} {pattern : π}
    {selected : σ} {candidates : List ι} :
    ∀ (folds : List θ) (perfs : List ℚ) (cvF : List σ)
      (cvR : List (List ι)) {e : ε},
      (doCVSelectionAux splitTT selectFeats cvRate getCls reg merge
        break_crit pattern selected candidates folds perfs cvF cvR).2 =
        .error e →
      (∃ p x, splitTT p x = .error e) ∨
        (∃ p t, selectFeats p t = .error e) ∨
        (∃ p, cvRate p = .error e) ∨
        (∃ p q, getCls p q = .error e)
  | [], perfs, cvF, cvR => by
    intro h
    simp [doCVSelectionAux] at h
  | exclude :: rest, perfs, cvF, cvR => by
    intro h
    simp only [doCVSelectionAux] at h
    match hs : splitTT pattern exclude with
    | .error e0 =>
      rw [hs] at h
      simp only [Except.error.injEq] at h
      exact Or.inl ⟨pattern, exclude, by rw [hs, h]⟩
    | .ok (meta_train, meta_test) =>
      rw [hs] at h
      simp only at h
      match hd : doSelection selectFeats cvRate merge break_crit meta_train
          selected candidates with
      | .error e0 =>
        rw [hd] at h
        simp only [Except.error.injEq] at h
        rw [h] at hd
        rcases doSelection_error hd with ⟨t, hte⟩ | ⟨p, hpe⟩
        · exact Or.inr (Or.inl ⟨meta_train, t, hte⟩)
        · exact Or.inr (Or.inr (Or.inl ⟨p, hpe⟩))
      | .ok (selected_features, selected_rois) =>
        rw [hd] at h
        simp only at h
        match hb : selectFeats pattern selected_features with
        | .error e0 =>
          rw [hb] at h
          simp only [Except.error.injEq] at h
          exact Or.inr (Or.inl ⟨pattern, selected_features, by rw [hb, h]⟩)
        | .ok bestfeature_pat =>
          rw [hb] at h
          simp only at h
          match ht : selectFeats meta_test selected_features with
          | .error e0 =>
            rw [ht] at h
            simp only [Except.error.injEq] at h
            exact Or.inr (Or.inl ⟨meta_test, selected_features,
              by rw [ht, h]⟩)
          | .ok test_pat =>
            rw [ht] at h
            simp only at h
            match hg : getCls bestfeature_pat test_pat with
            | .error e0 =>
              rw [hg] at h
              simp only [Except.error.injEq] at h
              exact Or.inr (Or.inr (Or.inr ⟨bestfeature_pat, test_pat,
                by rw [hg, h]⟩))
            | .ok predictions =>
              rw [hg] at h
              simp only at h
              exact doCVSelectionAux_error rest
                (perfs ++ [accuracy predictions (reg meta_test)])
                (cvF ++ [selected_features]) (cvR ++ [selected_rois]) h

/-! ### Properties of the candidate pool constructions -/

/-- There is one nonzero flat index per nonzero array entry. -/
theorem length_nonzeroIndicesFrom :
    ∀ (i : Nat) (data : List ℤ),
      (nonzeroIndicesFrom i data).length =
        data.countP (fun v => decide (v ≠ 0))
  | _, [] => by simp [nonzeroIndicesFrom]
  | i, x :: xs => by
    by_cases hx : x = 0
    · simp [nonzeroIndicesFrom, hx, List.countP_cons,
        length_nonzeroIndicesFrom (i + 1) xs]
    · simp [nonzeroIndicesFrom, hx, List.countP_cons,
        length_nonzeroIndicesFrom (i + 1) xs]

/-- Every index produced from starting point `i` is at least `i`. -/
theorem le_of_mem_nonzeroIndicesFrom :
    ∀ (i : Nat) (data : List ℤ) (j : Nat),
      j ∈ nonzeroIndicesFrom i data → i ≤ j
  | _, [], _ => by simp [nonzeroIndicesFrom]
  | i, x :: xs, j => by
    intro hj
    by_cases hx : x = 0
    · rw [nonzeroIndicesFrom, if_neg (by simpa using hx)] at hj
      exact le_trans (Nat.le_succ i) (le_of_mem_nonzeroIndicesFrom _ _ _ hj)
    · rw [nonzeroIndicesFrom, if_pos (by simpa using hx)] at hj
      rcases List.mem_cons.mp hj with rfl | hj2
      · exact le_refl _
      · exact le_trans (Nat.le_succ i) (le_of_mem_nonzeroIndicesFrom _ _ _ hj2)

/-- The nonzero flat indices are produced in strictly increasing order:
coordinate-scan order. -/
theorem pairwise_nonzeroIndicesFrom :
    ∀ (i : Nat) (data : List ℤ),
      (nonzeroIndicesFrom i data).Pairwise (· < ·)
  | _, [] => by simp [nonzeroIndicesFrom]
  | i, x :: xs => by
    by_cases hx : x = 0
    · rw [nonzeroIndicesFrom, if_neg (by simpa using hx)]
      exact pairwise_nonzeroIndicesFrom (i + 1) xs
    · rw [nonzeroIndicesFrom, if_pos (by simpa using hx)]
      refine List.Pairwise.cons ?_ (pairwise_nonzeroIndicesFrom (i + 1) xs)
      intro j hj
      exact lt_of_lt_of_le (Nat.lt_succ_self i)
        (le_of_mem_nonzeroIndicesFrom _ _ _ hj)

/-- Characterization of the produced indices: exactly the in-range offsets
at which the array is nonzero, shifted by the starting point. -/
theorem mem_nonzeroIndicesFrom :
    ∀ (i : Nat) (data : List ℤ) (j : Nat),
      j ∈ nonzeroIndicesFrom i data ↔
        ∃ k, k < data.length ∧ data.getD k 0 ≠ 0 ∧ j = i + k
  | _, [], _ => by simp [nonzeroIndicesFrom]
  | i, x :: xs, j => by
    constructor
    · intro hj
      by_cases hx : x = 0
      · rw [nonzeroIndicesFrom, if_neg (by simpa using hx)] at hj
        obtain ⟨k, hk1, hk2, hk3⟩ :=
          (mem_nonzeroIndicesFrom (i + 1) xs j).mp hj
        exact ⟨k + 1, by simpa using hk1, by simpa using hk2, by omega⟩
      · rw [nonzeroIndicesFrom, if_pos (by simpa using hx)] at hj
        rcases List.mem_cons.mp hj with rfl | hj2
        · exact ⟨0, by simp, by simpa using hx, by omega⟩
        · obtain ⟨k, hk1, hk2, hk3⟩ :=
            (mem_nonzeroIndicesFrom (i + 1) xs j).mp hj2
          exact ⟨k + 1, by simpa using hk1, by simpa using hk2, by omega⟩
    · rintro ⟨k, hk1, hk2, rfl⟩
      match k with
      | 0 =>
        have hx : ¬x = 0 := by simpa using hk2
        rw [nonzeroIndicesFrom, if_pos (by simpa using hx)]
        simp
      | Nat.succ m =>
        have hm : m < xs.length := by simpa using hk1
        have hv : xs.getD m 0 ≠ 0 := by simpa using hk2
        have hmem : (i + 1) + m ∈ nonzeroIndicesFrom (i + 1) xs :=
          (mem_nonzeroIndicesFrom (i + 1) xs ((i + 1) + m)).mpr
            ⟨m, hm, hv, rfl⟩
        by_cases hx : x = 0
        · rw [nonzeroIndicesFrom, if_neg (by simpa using hx)]
          have : i + (m + 1) = (i + 1) + m := by omega
          rw [this]
          exact hmem
        · rw [nonzeroIndicesFrom, if_pos (by simpa using hx)]
          have : i + (m + 1) = (i + 1) + m := by omega
          rw [this]
          exact List.mem_cons_of_mem _ hmem

/-- Membership in `insertSortedUniq` is membership in the original list or
equality with the inserted value. -/
theorem mem_insertSortedUniq {x a : ℤ} :
    ∀ {l : List ℤ}, a ∈ insertSortedUniq x l ↔ a = x ∨ a ∈ l
  | [] => by simp [insertSortedUniq]
  | y :: ys => by
    by_cases h1 : x < y
    · simp [insertSortedUniq, h1]
    · by_cases h2 : x = y
      · subst h2
        rw [insertSortedUniq, if_neg h1, if_pos rfl]
        simp only [List.mem_cons]
        tauto
      · simp only [insertSortedUniq, if_neg h1, if_neg h2, List.mem_cons,
          mem_insertSortedUniq (l := ys)]
        tauto

/-- Inserting with `insertSortedUniq` preserves strict sortedness. -/
theorem pairwise_insertSortedUniq {x : ℤ} :
    ∀ {l : List ℤ}, l.Pairwise (· < ·) →
      (insertSortedUniq x l).Pairwise (· < ·)
  | [], _ => by simp [insertSortedUniq]
  | y :: ys, hp => by
    obtain ⟨hy, hys⟩ := List.pairwise_cons.mp hp
    by_cases h1 : x < y
    · rw [insertSortedUniq, if_pos h1]
      refine List.pairwise_cons.mpr ⟨?_, hp⟩
      intro b hb
      rcases List.mem_cons.mp hb with rfl | hb2
      · exact h1
      · exact lt_trans h1 (hy b hb2)
    · by_cases h2 : x = y
      · rw [insertSortedUniq, if_neg h1, if_pos h2]
        exact hp
      · rw [insertSortedUniq, if_neg h1, if_neg h2]
        refine List.pairwise_cons.mpr ⟨?_, pairwise_insertSortedUniq hys⟩
        intro b hb
        rcases mem_insertSortedUniq.mp hb with rfl | hb2
        · omega
        · exact hy b hb2

/-- The values of `sortedUnique` are exactly the values of the input. -/
theorem mem_sortedUnique {a : ℤ} :
    ∀ {data : List ℤ}, a ∈ sortedUnique data ↔ a ∈ data := by
  intro data
  induction data with
  | nil => simp [sortedUnique]
  | cons x xs ih =>
    simp only [sortedUnique, List.foldr_cons] at *
    rw [mem_insertSortedUniq, ih, List.mem_cons]

/-- The list `sortedUnique` builds is strictly sorted. -/
theorem pairwise_sortedUnique (data : List ℤ) :
    (sortedUnique data).Pairwise (· < ·) := by
  induction data with
  | nil => simp [sortedUnique]
  | cons x xs ih =>
    simpa [sortedUnique] using pairwise_insertSortedUniq ih

/-- The list `sortedUnique` builds has no duplicates. -/
theorem nodup_sortedUnique (data : List ℤ) : (sortedUnique data).Nodup :=
  (pairwise_sortedUnique data).imp ne_of_lt

/-- The length of `sortedUnique` is the number of distinct values of the
input. -/
theorem length_sortedUnique (data : List ℤ) :
    (sortedUnique data).length = data.toFinset.card := by
  have hset : (sortedUnique data).toFinset = data.toFinset := by
    ext a
    simp [List.mem_toFinset, mem_sortedUnique]
  rw [← hset, List.toFinset_card_of_nodup (nodup_sortedUnique data)]

/-! ### Claim theorems -/

/-- Claim C7: for every mask and dataset whose original feature-space shape
differs from the mask shape, constructing the search object fails
immediately with the `ValueError` configuration error, before any search
runs. -/
theorem claim7_mask_shape_check (origshape : π → List Nat) (pattern : π)
    (mask : NdMask) (cvtype metacvtype : Nat) (break_crit : ℚ)
    (h : mask.shape ≠ origshape pattern) :
    init (θ := θ) (μ := μ) origshape pattern mask cvtype metacvtype
      break_crit =
      .error "Mask shape has to match the pattern origshape." := by
  simp [init, h]

/-- Witness for C7: a concrete 1-d mask of length 3 against a dataset with
original shape of length 2. -/
theorem claim7_mask_shape_check_witness :
    (⟨[3], [0, 0, 0]⟩ : NdMask).shape ≠ (fun _ => [2]) 0 ∧
    init (π := Nat) (θ := Nat) (μ := Nat) (fun _ => [2]) 0
      ⟨[3], [0, 0, 0]⟩ 1 1 (1 / 1000) =
      .error "Mask shape has to match the pattern origshape." :=
  ⟨by decide, claim7_mask_shape_check _ _ _ _ _ _ (by decide)⟩

/-- Claim C9: requesting the mean selection mask when the selection-mask
accumulator is empty returns the explicit no-result value `none`; the
accessor is total (it cannot fail) and `none` is distinct from any
zero-filled mask value. -/
theorem claim9_mean_mask_none (meanStack : List μ → ν) (s : IFS π θ μ)
    (h : s.selection_masks = []) :
    getMeanSelectionMask meanStack s = none := by
  simp [getMeanSelectionMask, h]

/-- Witness for C9: a concrete freshly constructed search state with the
empty selection-mask accumulator. -/
theorem claim9_mean_mask_none_witness :
    ({ pattern := 0, mask := ⟨[1], [1]⟩, cvtype := 1, metacvtype := 1,
       break_crit := 1 / 1000, perfs := [], selection_masks := [],
       metacv_origins := [] } : IFS Nat Nat (List ℚ)).selection_masks =
      [] ∧
    getMeanSelectionMask (fun _ => ([] : List ℚ))
      ({ pattern := 0, mask := ⟨[1], [1]⟩, cvtype := 1, metacvtype := 1,
         break_crit := 1 / 1000, perfs := [], selection_masks := [],
         metacv_origins := [] } : IFS Nat Nat (List ℚ)) = none :=
  ⟨rfl, claim9_mean_mask_none _ _ rfl⟩

/-- Claim C4: the feature-mode candidate pool maps the feature-id lookup
over exactly the nonzero mask positions in coordinate-scan (strictly
increasing flat index) order, so its size is the number of nonzero mask
elements; and the ROI-mode candidate pool is the sorted duplicate-free list
of the distinct mask values (zero included whenever it occurs in the mask),
so its size is the number of distinct mask values. -/
theorem claim4_candidate_pools (getFeatureId : Nat → ι) (mask : NdMask) :
    (featureCandidatePool getFeatureId mask).length =
        mask.data.countP (fun v => decide (v ≠ 0)) ∧
    featureCandidatePool getFeatureId mask =
        (nonzeroIndices mask.data).map getFeatureId ∧
    (nonzeroIndices mask.data).Pairwise (· < ·) ∧
    (∀ j, j ∈ nonzeroIndices mask.data ↔
        j < mask.data.length ∧ mask.data.getD j 0 ≠ 0) ∧
    (roiCandidatePool mask).Pairwise (· < ·) ∧
    (roiCandidatePool mask).Nodup ∧
    (∀ v, v ∈ roiCandidatePool mask ↔ v ∈ mask.data) ∧
    (roiCandidatePool mask).length = mask.data.toFinset.card := by
  refine ⟨?_, rfl, pairwise_nonzeroIndicesFrom 0 _, ?_,
    pairwise_sortedUnique _, nodup_sortedUnique _,
    fun v => mem_sortedUnique, length_sortedUnique _⟩
  · simp [featureCandidatePool, nonzeroIndices, length_nonzeroIndicesFrom]
  · intro j
    rw [nonzeroIndices, mem_nonzeroIndicesFrom]
    constructor
    · rintro ⟨k, h1, h2, rfl⟩
      simpa using And.intro h1 h2
    · rintro ⟨h1, h2⟩
      exact ⟨j, h1, h2, by omega⟩

/-- Claim C3: in a round of the greedy loop on a nonempty remaining pool
whose candidate ratings all computed successfully, the winning candidate —
the pool entry at the first maximal rating index, as picked by the source
via `feat_cand[rating_array.argmax()]` — attains the maximum rating, and
every candidate strictly earlier in pool order rates strictly below it
(first-occurrence tie-break).  If the maximum rating improves on
`best_performance_ever` by less than the break criterion the loop stops,
returning the current selected set and chosen ids with the winner NOT
added; otherwise the loop continues with the winner merged into the
selected set, its id appended to the chosen list, its first occurrence
removed from the local pool, and `best_performance_ever` set to its
rating. -/
theorem claim3_greedy_round [DecidableEq ι] (merge : σ → ι → σ)
    (rateSel : σ → Except ε ℚ) (break_crit : ℚ) (selected : σ) (bp : ℚ)
    (acc : List ι) (c : ι) (cs : List ι) (ratings : List ℚ)
    (hr : mapExcept (fun cand => rateSel (merge selected cand)) (c :: cs) =
      .ok ratings) :
    rateSel (merge selected ((c :: cs).getD (idxOfMax ratings) c)) =
        .ok (listMax ratings) ∧
    (∀ k, k < idxOfMax ratings →
        rateSel (merge selected ((c :: cs).getD k c)) =
            .ok (ratings.getD k 0) ∧
          ratings.getD k 0 < listMax ratings) ∧
    (listMax ratings - bp < break_crit →
        doSelectionLoop merge rateSel break_crit selected bp acc (c :: cs) =
          .ok (selected, acc, c :: cs)) ∧
    (¬listMax ratings - bp < break_crit →
        doSelectionLoop merge rateSel break_crit selected bp acc (c :: cs) =
          doSelectionLoop merge rateSel break_crit
            (merge selected ((c :: cs).getD (idxOfMax ratings) c))
            (listMax ratings)
            (acc ++ [(c :: cs).getD (idxOfMax ratings) c])
            ((c :: cs).erase
              ((c :: cs).getD (idxOfMax ratings) c))) := by
  have hlen : ratings.length = (c :: cs).length := mapExcept_ok_length hr
  have hne : ratings ≠ [] := by
    intro hr0
    rw [hr0] at hlen
    simp at hlen
  have hidx : idxOfMax ratings < (c :: cs).length := by
    rw [← hlen]
    exact idxOfMax_lt_length hne
  refine ⟨?_, ?_, ?_, ?_⟩
  · have := mapExcept_ok_getD hr (idxOfMax ratings) hidx c 0
    rwa [getD_idxOfMax hne] at this
  · intro k hk
    have hklt : k < (c :: cs).length := lt_trans hk hidx
    exact ⟨mapExcept_ok_getD hr k hklt c 0, getD_lt_of_lt_idxOfMax hk⟩
  · intro hstop
    rw [doSelectionLoop, hr]
    simp only [if_pos hstop]
  · intro hgo
    rw [doSelectionLoop, hr]
    simp only [if_neg hgo]

/-- Witness for C3: two candidates with the feature-id selector and a
rating that counts the selected features. -/
theorem claim3_greedy_round_witness :
    mapExcept
        (fun cand => (.ok ((selectByFeatureId ([] : List Nat) cand).length
          : ℚ) : Except String ℚ)) [7, 8] = .ok [1, 1] ∧
    ((fun s => (.ok ((s : List Nat).length : ℚ) : Except String ℚ))
          (selectByFeatureId []
            (([7, 8] : List Nat).getD (idxOfMax [1, 1]) 7)) =
        .ok (listMax [1, 1]) ∧
      (∀ k, k < idxOfMax [1, 1] →
          (fun s => (.ok ((s : List Nat).length : ℚ) : Except String ℚ))
              (selectByFeatureId [] (([7, 8] : List Nat).getD k 7)) =
              .ok (([1, 1] : List ℚ).getD k 0) ∧
            ([1, 1] : List ℚ).getD k 0 < listMax [1, 1]) ∧
      (listMax [1, 1] - 0 < 1 / 1000 →
          doSelectionLoop selectByFeatureId
            (fun s => (.ok ((s : List Nat).length : ℚ) : Except String ℚ))
            (1 / 1000) [] 0 [] [7, 8] = .ok ([], [], [7, 8])) ∧
      (¬listMax [1, 1] - 0 < 1 / 1000 →
          doSelectionLoop selectByFeatureId
            (fun s => (.ok ((s : List Nat).length : ℚ) : Except String ℚ))
            (1 / 1000) [] 0 [] [7, 8] =
            doSelectionLoop selectByFeatureId
              (fun s => (.ok ((s : List Nat).length : ℚ) : Except String ℚ))
              (1 / 1000)
              (selectByFeatureId []
                (([7, 8] : List Nat).getD (idxOfMax [1, 1]) 7))
              (listMax [1, 1])
              ([] ++ [([7, 8] : List Nat).getD (idxOfMax [1, 1]) 7])
              (([7, 8] : List Nat).erase
                (([7, 8] : List Nat).getD (idxOfMax [1, 1]) 7)))) :=
  ⟨by rfl, claim3_greedy_round selectByFeatureId
    (fun s => (.ok ((s : List Nat).length : ℚ) : Except String ℚ))
    (1 / 1000) [] 0 [] 7 [8] [1, 1] (by rfl)⟩

/-- Claim C8: a run of the greedy inner selection on a duplicate-free
candidate pool returns a duplicate-free chosen-id list whose length never
exceeds the size of the initial pool.  (Both pools the program builds are
duplicate-free: the ROI pool is `np.unique` output, and the feature pool
maps the dataset feature-id lookup over distinct coordinates.) -/
theorem claim8_no_duplicates_bounded [DecidableEq ι]
    (selectFeats : π → σ → Except ε π) (cvRate : π → Except ε ℚ)
    (merge : σ → ι → σ) (break_crit : ℚ) (pattern : π) (selected : σ)
    (candidates : List ι) (s : σ) (ids : List ι)
    (hnd : candidates.Nodup)
    (h : doSelection selectFeats cvRate merge break_crit pattern selected
      candidates = .ok (s, ids)) :
    ids.Nodup ∧ ids.length ≤ candidates.length := by
  unfold doSelection at h
  match hl : doSelectionLoop merge
      (fun s => match selectFeats pattern s with
        | .error e => .error e
        | .ok temp_pat => cvRate temp_pat)
      break_crit selected 0 [] candidates with
  | .error e =>
    rw [hl] at h
    exact absurd h (by simp)
  | .ok (s1, ids1, rest1) =>
    rw [hl] at h
    simp only [Except.ok.injEq, Prod.mk.injEq] at h
    obtain ⟨-, h2⟩ := h
    have hn := doSelectionLoop_ok_nodup selected 0 [] candidates
      (by simpa using hnd) hl
    have hlen := doSelectionLoop_ok_length selected 0 [] candidates hl
    subst h2
    exact ⟨hn.of_append_left, by simp at hlen; omega⟩

/-- Witness for C8: a duplicate-free two-candidate pool on which both
candidates are accepted. -/
theorem claim8_no_duplicates_bounded_witness :
    ([7, 8] : List Nat).Nodup ∧
    doSelection (fun (p : List Nat) (fs : List Nat) =>
        (.ok fs : Except String (List Nat)))
      (fun q => .ok (q.length : ℚ)) selectByFeatureId (1 / 1000) [] []
      [7, 8] = .ok ([7, 8], [7, 8]) ∧
    ([7, 8] : List Nat).Nodup ∧ ([7, 8] : List Nat).length ≤
      ([7, 8] : List Nat).length :=
  ⟨by decide, by rw [doSelection_eq_fuelLoop]; with_unfolding_all decide,
    claim8_no_duplicates_bounded
      (fun (p : List Nat) (fs : List Nat) =>
        (.ok fs : Except String (List Nat)))
      (fun q => .ok (q.length : ℚ)) selectByFeatureId (1 / 1000) [] []
      [7, 8] [7, 8] [7, 8] (by decide)
      (by rw [doSelection_eq_fuelLoop]; with_unfolding_all decide)⟩

/-- Claim C6: one inner-loop call never mutates the caller-owned candidate
pool object — the pool the caller holds after the call is the unchanged
input, because the loop works on a local copy — even though the local copy
genuinely shrinks by one entry per accepted candidate; consequently running
the loop twice with the same externally-owned pool object is the same call
on the same pool both times, with identical results and candidate
counts. -/
theorem claim6_pool_not_mutated [DecidableEq ι]
    (selectFeats : π → σ → Except ε π) (cvRate : π → Except ε ℚ)
    (merge : σ → ι → σ) (break_crit : ℚ) (pattern : π) (selected : σ)
    (candidates : List ι) (s : σ) (ids rest : List ι)
    (h : doSelectionLoop merge
        (fun t => match selectFeats pattern t with
          | .error e => .error e
          | .ok temp_pat => cvRate temp_pat)
        break_crit selected 0 [] candidates = .ok (s, ids, rest)) :
    ids.length + rest.length = candidates.length ∧
    (doSelectionPoolEffect selectFeats cvRate merge break_crit pattern
        selected candidates).2 = candidates ∧
    doSelectionPoolEffect selectFeats cvRate merge break_crit pattern
        selected
        ((doSelectionPoolEffect selectFeats cvRate merge break_crit
          pattern selected candidates).2) =
      doSelectionPoolEffect selectFeats cvRate merge break_crit pattern
        selected candidates := by
  refine ⟨?_, rfl, rfl⟩
  have hlen := doSelectionLoop_ok_length selected 0 [] candidates h
  simpa using hlen

/-- Witness for C6: the two-candidate pool, fully consumed by the loop
while the caller-owned pool is returned unchanged. -/
theorem claim6_pool_not_mutated_witness :
    doSelectionLoop selectByFeatureId
        (fun t => match (.ok t : Except String (List Nat)) with
          | .error e => .error e
          | .ok temp_pat => .ok (temp_pat.length : ℚ))
        (1 / 1000) [] 0 [] [7, 8] = .ok ([7, 8], [7, 8], []) ∧
    (([7, 8] : List Nat).length + ([] : List Nat).length =
        ([7, 8] : List Nat).length ∧
      (doSelectionPoolEffect
          (fun (p : List Nat) (fs : List Nat) =>
            (.ok fs : Except String (List Nat)))
          (fun q => .ok (q.length : ℚ)) selectByFeatureId (1 / 1000) []
          [] [7, 8]).2 = [7, 8] ∧
      doSelectionPoolEffect
          (fun (p : List Nat) (fs : List Nat) =>
            (.ok fs : Except String (List Nat)))
          (fun q => .ok (q.length : ℚ)) selectByFeatureId (1 / 1000) []
          []
          ((doSelectionPoolEffect
            (fun (p : List Nat) (fs : List Nat) =>
              (.ok fs : Except String (List Nat)))
            (fun q => .ok (q.length : ℚ)) selectByFeatureId (1 / 1000)
            [] [] [7, 8]).2) =
        doSelectionPoolEffect
          (fun (p : List Nat) (fs : List Nat) =>
            (.ok fs : Except String (List Nat)))
          (fun q => .ok (q.length : ℚ)) selectByFeatureId (1 / 1000) []
          [] [7, 8]) :=
  ⟨by
      rw [doSelectionLoop_eq_fuel 2 [] 0 [] [7, 8] (by decide)]
      with_unfolding_all decide,
    claim6_pool_not_mutated
      (fun (p : List Nat) (fs : List Nat) =>
        (.ok fs : Except String (List Nat)))
      (fun q => .ok (q.length : ℚ)) selectByFeatureId (1 / 1000) [] []
      [7, 8] [7, 8] [7, 8] []
      (by
        rw [doSelectionLoop_eq_fuel 2 [] 0 [] [7, 8] (by decide)]
        with_unfolding_all decide)⟩

/-- With the feature-id selector and the empty initial selection, the final
selected list of `__doSelection` equals its chosen-id list. -/
theorem doSelection_featureId_selected [DecidableEq ι]
    {selectFeats : π → List ι → Except ε π} {cvRate : π → Except ε ℚ}
    {break_crit : ℚ} {pattern : π} {candidates : List ι} {s ids : List ι}
    (h : doSelection selectFeats cvRate selectByFeatureId break_crit
      pattern [] candidates = .ok (s, ids)) : s = ids := by
  unfold doSelection at h
  match hl : doSelectionLoop selectByFeatureId
      (fun s => match selectFeats pattern s with
        | .error e => .error e
        | .ok temp_pat => cvRate temp_pat)
      break_crit [] 0 [] candidates with
  | .error e =>
    rw [hl] at h
    exact absurd h (by simp)
  | .ok (s1, ids1, rest1) =>
    rw [hl] at h
    simp only [Except.ok.injEq, Prod.mk.injEq] at h
    obtain ⟨h1, h2⟩ := h
    obtain ⟨t, ht1, ht2⟩ := doSelectionLoop_featureId_selected [] 0 []
      candidates hl
    simp only [List.nil_append] at ht1 ht2
    rw [← h1, ← h2, ht1, ht2]

/-- Mapping two functions that agree on everything related by a `Forall₂`
yields equal maps. -/
theorem forall₂_map_eq {α β γ : Type _} {R : α → β → Prop} {f g : β → γ} :
    ∀ {l1 : List α} {l2 : List β}, List.Forall₂ R l1 l2 →
      (∀ a b, R a b → f b = g b) → l2.map f = l2.map g := by
  intro l1 l2 hall himp
  induction hall with
  | nil => rfl
  | cons hR hrest ih => simp [himp _ _ hR, ih]

/-- In feature mode with the empty initial selection, a successful fold
outcome has its final selected list equal to its chosen-id list. -/
theorem foldOutcome_featureId [DecidableEq ι] [DecidableEq Λ]
    {splitTT : π → θ → Except ε (π × π)}
    {selectFeats : π → List ι → Except ε π} {cvRate : π → Except ε ℚ}
    {getCls : π → π → Except ε (List Λ)} {reg : π → List Λ}
    {break_crit : ℚ} {pattern : π} {candidates : List ι} {x : θ}
    {o : List ι × List ι × ℚ}
    (h : foldOutcome splitTT selectFeats cvRate getCls reg
      selectByFeatureId break_crit pattern [] candidates x = .ok o) :
    o.1 = o.2.1 := by
  unfold foldOutcome at h
  match hs : splitTT pattern x with
  | .error e =>
    rw [hs] at h
    exact absurd h (by simp)
  | .ok (meta_train, meta_test) =>
    rw [hs] at h
    simp only at h
    match hd : doSelection selectFeats cvRate selectByFeatureId break_crit
        meta_train [] candidates with
    | .error e =>
      rw [hd] at h
      exact absurd h (by simp)
    | .ok (sf, sr) =>
      rw [hd] at h
      simp only at h
      have hfe : sf = sr := doSelection_featureId_selected hd
      match hb : selectFeats pattern sf with
      | .error e =>
        rw [hb] at h
        exact absurd h (by simp)
      | .ok bestfeature_pat =>
        rw [hb] at h
        simp only at h
        match ht : selectFeats meta_test sf with
        | .error e =>
          rw [ht] at h
          exact absurd h (by simp)
        | .ok test_pat =>
          rw [ht] at h
          simp only at h
          match hg : getCls bestfeature_pat test_pat with
          | .error e =>
            rw [hg] at h
            exact absurd h (by simp)
          | .ok predictions =>
            rw [hg] at h
            simp only [Except.ok.injEq] at h
            rw [← h]
            simpa using hfe

/-- Claim C5: on success both entry points return, per meta-fold in
enumeration order, the chosen-candidate-id lists: `selectFeatures` returns
for each fold the per-fold result whose final selected list coincides with
the accepted feature ids in acceptance order (the initial selected set is
the empty list), and `selectROIs` returns for each fold the accepted ROI
mask values in acceptance order. -/
theorem claim5_returns_chosen_ids [DecidableEq ι] [DecidableEq Λ]
    (combos : π → Nat → List θ)
    (splitTT : π → θ → Except ε (π × π))
    (selectFeatsF : π → List ι → Except ε π) (cvRateF : π → Except ε ℚ)
    (getClsF : π → π → Except ε (List Λ)) (regF : π → List Λ)
    (getFeatureId : Nat → ι) (f2origmask : List ι → μ)
    (sF s2F : IFS π θ μ) (r : List (List ι))
    (selectFeatsR : π → List Bool → Except ε π) (cvRateR : π → Except ε ℚ)
    (getClsR : π → π → Except ε (List Λ)) (regR : π → List Λ)
    (sR s2R : IFS π θ (List Bool)) (r2 : List (List ℤ))
    (hF : selectFeaturesM combos splitTT selectFeatsF cvRateF getClsF regF
      getFeatureId f2origmask sF = (s2F, .ok r))
    (hR : selectROIsM combos splitTT selectFeatsR cvRateR getClsR regR
      sR = (s2R, .ok r2)) :
    (∃ outs : List (List ι × List ι × ℚ),
      List.Forall₂ (fun x o => foldOutcome splitTT selectFeatsF cvRateF
          getClsF regF selectByFeatureId sF.break_crit sF.pattern []
          (featureCandidatePool getFeatureId sF.mask) x = .ok o)
        (combos sF.pattern sF.metacvtype) outs ∧
      r = outs.map (fun o => o.1) ∧
      r = outs.map (fun o => o.2.1)) ∧
    (∃ outs : List (List Bool × List ℤ × ℚ),
      List.Forall₂ (fun x o => foldOutcome splitTT selectFeatsR cvRateR
          getClsR regR (selectByMaskValue sR.mask) sR.break_crit
          sR.pattern (List.replicate sR.mask.data.length false)
          (roiCandidatePool sR.mask) x = .ok o)
        (combos sR.pattern sR.metacvtype) outs ∧
      r2 = outs.map (fun o => o.2.1)) := by
  constructor
  · simp only [selectFeaturesM, doCVSelectionM, clearResults] at hF
    rcases hA : doCVSelectionAux splitTT selectFeatsF cvRateF getClsF regF
        selectByFeatureId sF.break_crit sF.pattern []
        (featureCandidatePool getFeatureId sF.mask)
        (combos sF.pattern sF.metacvtype) [] [] [] with ⟨p2, res⟩
    rw [hA] at hF
    match res with
    | .error e => simp at hF
    | .ok (F, R) =>
      simp only [Prod.mk.injEq, Except.ok.injEq] at hF
      obtain ⟨-, hr⟩ := hF
      obtain ⟨outs, hall, -, hFo, hRo⟩ := doCVSelectionAux_ok _ _ _ _ hA
      refine ⟨outs, hall, ?_, ?_⟩
      · rw [← hr, hFo]
        simp
      · rw [← hr, hFo]
        simp only [List.nil_append]
        exact forall₂_map_eq hall (fun a b hab => foldOutcome_featureId hab)
  · simp only [selectROIsM, doCVSelectionM, clearResults, roiCandidatePool]
      at hR
    rcases hA : doCVSelectionAux splitTT selectFeatsR cvRateR getClsR regR
        (selectByMaskValue sR.mask) sR.break_crit sR.pattern
        (List.replicate sR.mask.data.length false)
        (sortedUnique sR.mask.data)
        (combos sR.pattern sR.metacvtype) [] [] [] with ⟨p2, res⟩
    rw [hA] at hR
    match res with
    | .error e => simp at hR
    | .ok (F, R) =>
      simp only [Prod.mk.injEq, Except.ok.injEq] at hR
      obtain ⟨-, hr⟩ := hR
      obtain ⟨outs, hall, -, -, hRo⟩ := doCVSelectionAux_ok _ _ _ _ hA
      refine ⟨outs, ?_, ?_⟩
      · simpa [roiCandidatePool] using hall
      · rw [← hr, hRo]
        simp

/-- Claim C1 evaluated at a concrete failing input (code bug): line 139 of
the source fits the classifier on `self.pattern.selectFeatures(...)` — the
FULL dataset restricted to the selected features, meta-test samples
included — instead of the meta training subset the specification
prescribes.  With a classifier whose prediction depends on whether label 0
occurs in its training set, the source records fold accuracy 1 while the
specified meta-train fit records fold accuracy 0. -/
theorem claim1_full_pattern_fit_bug :
    (doCVSelectionAux exSplitTT exSelectFeatsId exCvRate exGetClsMem exReg
        selectByFeatureId (1 / 1000) [0, 1] ([] : List Nat)
        ([] : List Nat) [0] [] [] []).1 = [1] ∧
    (doCVSelectionAuxSpec exSplitTT exSelectFeatsId exCvRate exGetClsMem
        exReg selectByFeatureId (1 / 1000) [0, 1] ([] : List Nat)
        ([] : List Nat) [0] [] [] []).1 = [0] ∧
    (doCVSelectionAux exSplitTT exSelectFeatsId exCvRate exGetClsMem exReg
        selectByFeatureId (1 / 1000) [0, 1] ([] : List Nat)
        ([] : List Nat) [0] [] [] []).1 ≠
      (doCVSelectionAuxSpec exSplitTT exSelectFeatsId exCvRate exGetClsMem
        exReg selectByFeatureId (1 / 1000) [0, 1] ([] : List Nat)
        ([] : List Nat) [0] [] [] []).1 := by
  refine ⟨?_, ?_, ?_⟩ <;> with_unfolding_all decide

/-- Counterexample to claim C2 as stated: with two meta-folds where the
first completes with accuracy 1 and the split of the second raises, the
exception propagates, but the per-fold accuracy accumulator is NOT left in
its cleared empty state — it retains the accuracy of the completed first
fold. -/
theorem claim2_counterexample :
    (selectFeaturesM exCombos2 exSplitTTfail exSelectFeats exCvRate
        exGetCls exReg (fun i => i) (fun f => f) exStateF0).2 =
      .error "boom" ∧
    (selectFeaturesM exCombos2 exSplitTTfail exSelectFeats exCvRate
        exGetCls exReg (fun i => i) (fun f => f) exStateF0).1.perfs =
      [1] ∧
    (selectFeaturesM exCombos2 exSplitTTfail exSelectFeats exCvRate
        exGetCls exReg (fun i => i) (fun f => f) exStateF0).1.perfs ≠
      [] := by
  refine ⟨?_, ?_, ?_⟩ <;> with_unfolding_all decide

/-- Claim C2 amended: when a collaborator raises during a fold of a
`selectFeatures` or `selectROIs` call, the exception value propagates to
the caller unmodified — it is an error produced by one of the collaborators
— and the per-fold selection-mask accumulator is left in its cleared empty
state; the per-fold accuracy accumulator, however, retains the accuracies
of the meta-folds completed before the failure (at most one entry per
meta-fold), so it is empty only when the failure strikes the first
fold. -/
theorem claim2_amended [DecidableEq ι] [DecidableEq Λ]
    (E : ε → Prop)
    (combos : π → Nat → List θ)
    (splitTT : π → θ → Except ε (π × π))
    (selectFeatsF : π → List ι → Except ε π) (cvRateF : π → Except ε ℚ)
    (getClsF : π → π → Except ε (List Λ)) (regF : π → List Λ)
    (getFeatureId : Nat → ι) (f2origmask : List ι → μ)
    (selectFeatsR : π → List Bool → Except ε π) (cvRateR : π → Except ε ℚ)
    (getClsR : π → π → Except ε (List Λ)) (regR : π → List Λ)
    (sF s2F : IFS π θ μ) (sR s2R : IFS π θ (List Bool)) (e1 e2 : ε)
    (hsplitE : ∀ p x e, splitTT p x = .error e → E e)
    (hsfFE : ∀ p t e, selectFeatsF p t = .error e → E e)
    (hcvFE : ∀ p e, cvRateF p = .error e → E e)
    (hgcFE : ∀ p q e, getClsF p q = .error e → E e)
    (hsfRE : ∀ p t e, selectFeatsR p t = .error e → E e)
    (hcvRE : ∀ p e, cvRateR p = .error e → E e)
    (hgcRE : ∀ p q e, getClsR p q = .error e → E e)
    (hF : selectFeaturesM combos splitTT selectFeatsF cvRateF getClsF regF
      getFeatureId f2origmask sF = (s2F, .error e1))
    (hR : selectROIsM combos splitTT selectFeatsR cvRateR getClsR regR sR =
      (s2R, .error e2)) :
    (E e1 ∧ s2F.selection_masks = [] ∧
      ∃ (folds1 : List θ) (x : θ) (folds2 : List θ)
        (outs : List (List ι × List ι × ℚ)),
        combos sF.pattern sF.metacvtype = folds1 ++ x :: folds2 ∧
        List.Forall₂ (fun y o => foldOutcome splitTT selectFeatsF cvRateF
          getClsF regF selectByFeatureId sF.break_crit sF.pattern []
          (featureCandidatePool getFeatureId sF.mask) y = .ok o)
          folds1 outs ∧
        s2F.perfs = outs.map (fun o => o.2.2) ∧
        foldOutcome splitTT selectFeatsF cvRateF getClsF regF
          selectByFeatureId sF.break_crit sF.pattern []
          (featureCandidatePool getFeatureId sF.mask) x = .error e1) ∧
    (E e2 ∧ s2R.selection_masks = [] ∧
      ∃ (folds1 : List θ) (x : θ) (folds2 : List θ)
        (outs : List (List Bool × List ℤ × ℚ)),
        combos sR.pattern sR.metacvtype = folds1 ++ x :: folds2 ∧
        List.Forall₂ (fun y o => foldOutcome splitTT selectFeatsR cvRateR
          getClsR regR (selectByMaskValue sR.mask) sR.break_crit
          sR.pattern (List.replicate sR.mask.data.length false)
          (roiCandidatePool sR.mask) y = .ok o) folds1 outs ∧
        s2R.perfs = outs.map (fun o => o.2.2) ∧
        foldOutcome splitTT selectFeatsR cvRateR getClsR regR
          (selectByMaskValue sR.mask) sR.break_crit sR.pattern
          (List.replicate sR.mask.data.length false)
          (roiCandidatePool sR.mask) x = .error e2) := by
  constructor
  · simp only [selectFeaturesM, doCVSelectionM, clearResults] at hF
    rcases hA : doCVSelectionAux splitTT selectFeatsF cvRateF getClsF regF
        selectByFeatureId sF.break_crit sF.pattern []
        (featureCandidatePool getFeatureId sF.mask)
        (combos sF.pattern sF.metacvtype) [] [] [] with ⟨p2, res⟩
    rw [hA] at hF
    match res with
    | .ok X =>
      obtain ⟨F, R⟩ := X
      simp at hF
    | .error e0 =>
      simp only [Prod.mk.injEq, Except.error.injEq] at hF
      obtain ⟨hs2, he⟩ := hF
      subst he
      have hE : E e0 := by
        have h2 : (doCVSelectionAux splitTT selectFeatsF cvRateF getClsF
            regF selectByFeatureId sF.break_crit sF.pattern []
            (featureCandidatePool getFeatureId sF.mask)
            (combos sF.pattern sF.metacvtype) [] [] []).2 = .error e0 := by
          rw [hA]
        rcases doCVSelectionAux_error _ _ _ _ h2 with
          ⟨p, x, hx⟩ | ⟨p, t, ht⟩ | ⟨p, hp⟩ | ⟨p, q, hq⟩
        · exact hsplitE p x _ hx
        · exact hsfFE p t _ ht
        · exact hcvFE p _ hp
        · exact hgcFE p q _ hq
      refine ⟨hE, ?_, ?_⟩
      · rw [← hs2]
      · obtain ⟨folds1, x, folds2, outs, hsplit, hall, hp, hx⟩ :=
          doCVSelectionAux_error_split (combos sF.pattern sF.metacvtype)
            [] [] [] (by rw [hA])
        refine ⟨folds1, x, folds2, outs, hsplit, hall, ?_, hx⟩
        rw [← hs2]
        simpa using hp
  · simp only [selectROIsM, doCVSelectionM, clearResults] at hR
    rcases hA : doCVSelectionAux splitTT selectFeatsR cvRateR getClsR regR
        (selectByMaskValue sR.mask) sR.break_crit sR.pattern
        (List.replicate sR.mask.data.length false)
        (roiCandidatePool sR.mask)
        (combos sR.pattern sR.metacvtype) [] [] [] with ⟨p2, res⟩
    rw [hA] at hR
    match res with
    | .ok X =>
      obtain ⟨F, R⟩ := X
      simp at hR
    | .error e0 =>
      simp only [Prod.mk.injEq, Except.error.injEq] at hR
      obtain ⟨hs2, he⟩ := hR
      subst he
      have hE : E e0 := by
        have h2 : (doCVSelectionAux splitTT selectFeatsR cvRateR getClsR
            regR (selectByMaskValue sR.mask) sR.break_crit sR.pattern
            (List.replicate sR.mask.data.length false)
            (roiCandidatePool sR.mask)
            (combos sR.pattern sR.metacvtype) [] [] []).2 = .error e0 := by
          rw [hA]
        rcases doCVSelectionAux_error _ _ _ _ h2 with
          ⟨p, x, hx⟩ | ⟨p, t, ht⟩ | ⟨p, hp⟩ | ⟨p, q, hq⟩
        · exact hsplitE p x _ hx
        · exact hsfRE p t _ ht
        · exact hcvRE p _ hp
        · exact hgcRE p q _ hq
      refine ⟨hE, ?_, ?_⟩
      · rw [← hs2]
      · obtain ⟨folds1, x, folds2, outs, hsplit, hall, hp, hx⟩ :=
          doCVSelectionAux_error_split (combos sR.pattern sR.metacvtype)
            [] [] [] (by rw [hA])
        refine ⟨folds1, x, folds2, outs, hsplit, hall, ?_, hx⟩
        rw [← hs2]
        simpa using hp

/-- Claim C10: no call to either entry point mutates the stored mask or
pattern objects (the returned state carries both unchanged, bit for bit,
whether the call succeeds or raises); the mask-value selector builds a
fresh array and reads the mask only through the equality comparison with
the candidate value — it depends on nothing else of the mask — and the
feature-id selector is fresh list concatenation; consequently, on success,
every meta-fold of a call ran its inner search from the identical initial
selected value: the empty list in feature mode, the all-false mask in ROI
mode. -/
theorem claim10_no_mutation [DecidableEq ι] [DecidableEq Λ]
    (combos : π → Nat → List θ)
    (splitTT : π → θ → Except ε (π × π))
    (selectFeatsF : π → List ι → Except ε π) (cvRateF : π → Except ε ℚ)
    (getClsF : π → π → Except ε (List Λ)) (regF : π → List Λ)
    (getFeatureId : Nat → ι) (f2origmask : List ι → μ)
    (selectFeatsR : π → List Bool → Except ε π) (cvRateR : π → Except ε ℚ)
    (getClsR : π → π → Except ε (List Λ)) (regR : π → List Λ)
    (sF : IFS π θ μ) (sR : IFS π θ (List Bool)) :
    ((selectFeaturesM combos splitTT selectFeatsF cvRateF getClsF regF
        getFeatureId f2origmask sF).1.mask = sF.mask ∧
      (selectFeaturesM combos splitTT selectFeatsF cvRateF getClsF regF
        getFeatureId f2origmask sF).1.pattern = sF.pattern) ∧
    ((selectROIsM combos splitTT selectFeatsR cvRateR getClsR regR
        sR).1.mask = sR.mask ∧
      (selectROIsM combos splitTT selectFeatsR cvRateR getClsR regR
        sR).1.pattern = sR.pattern) ∧
    (∀ (m m2 : NdMask) (sel : List Bool) (c : ℤ),
      m.data.map (fun v => decide (v = c)) =
        m2.data.map (fun v => decide (v = c)) →
      selectByMaskValue m sel c = selectByMaskValue m2 sel c) ∧
    (∀ (sel : List ι) (c : ι), selectByFeatureId sel c = sel ++ [c]) ∧
    (∀ (s2F : IFS π θ μ) (r : List (List ι)),
      selectFeaturesM combos splitTT selectFeatsF cvRateF getClsF regF
        getFeatureId f2origmask sF = (s2F, .ok r) →
      ∃ outs : List (List ι × List ι × ℚ),
        List.Forall₂ (fun x o => foldOutcome splitTT selectFeatsF cvRateF
            getClsF regF selectByFeatureId sF.break_crit sF.pattern []
            (featureCandidatePool getFeatureId sF.mask) x = .ok o)
          (combos sF.pattern sF.metacvtype) outs) ∧
    (∀ (s2R : IFS π θ (List Bool)) (r2 : List (List ℤ)),
      selectROIsM combos splitTT selectFeatsR cvRateR getClsR regR sR =
        (s2R, .ok r2) →
      ∃ outs : List (List Bool × List ℤ × ℚ),
        List.Forall₂ (fun x o => foldOutcome splitTT selectFeatsR cvRateR
            getClsR regR (selectByMaskValue sR.mask) sR.break_crit
            sR.pattern (List.replicate sR.mask.data.length false)
            (roiCandidatePool sR.mask) x = .ok o)
          (combos sR.pattern sR.metacvtype) outs) := by
  refine ⟨⟨?_, ?_⟩, ⟨?_, ?_⟩, ?_, ?_, ?_, ?_⟩
  · simp only [selectFeaturesM, doCVSelectionM, clearResults]
    rcases hA : doCVSelectionAux splitTT selectFeatsF cvRateF getClsF regF
        selectByFeatureId sF.break_crit sF.pattern []
        (featureCandidatePool getFeatureId sF.mask)
        (combos sF.pattern sF.metacvtype) [] [] [] with ⟨p2, res⟩
    cases res with
    | error e => rfl
    | ok X =>
      obtain ⟨F, R⟩ := X
      rfl
  · simp only [selectFeaturesM, doCVSelectionM, clearResults]
    rcases hA : doCVSelectionAux splitTT selectFeatsF cvRateF getClsF regF
        selectByFeatureId sF.break_crit sF.pattern []
        (featureCandidatePool getFeatureId sF.mask)
        (combos sF.pattern sF.metacvtype) [] [] [] with ⟨p2, res⟩
    cases res with
    | error e => rfl
    | ok X =>
      obtain ⟨F, R⟩ := X
      rfl
  · simp only [selectROIsM, doCVSelectionM, clearResults]
    rcases hA : doCVSelectionAux splitTT selectFeatsR cvRateR getClsR regR
        (selectByMaskValue sR.mask) sR.break_crit sR.pattern
        (List.replicate sR.mask.data.length false)
        (roiCandidatePool sR.mask)
        (combos sR.pattern sR.metacvtype) [] [] [] with ⟨p2, res⟩
    cases res with
    | error e => rfl
    | ok X =>
      obtain ⟨F, R⟩ := X
      rfl
  · simp only [selectROIsM, doCVSelectionM, clearResults]
    rcases hA : doCVSelectionAux splitTT selectFeatsR cvRateR getClsR regR
        (selectByMaskValue sR.mask) sR.break_crit sR.pattern
        (List.replicate sR.mask.data.length false)
        (roiCandidatePool sR.mask)
        (combos sR.pattern sR.metacvtype) [] [] [] with ⟨p2, res⟩
    cases res with
    | error e => rfl
    | ok X =>
      obtain ⟨F, R⟩ := X
      rfl
  · intro m m2 sel c h
    unfold selectByMaskValue
    have key : ∀ (bs : List Bool) (xs ys : List ℤ),
        xs.map (fun v => decide (v = c)) =
          ys.map (fun v => decide (v = c)) →
        List.zipWith (fun b v => b || decide (v = c)) bs xs =
          List.zipWith (fun b v => b || decide (v = c)) bs ys := by
      intro bs
      induction bs with
      | nil =>
        intro xs ys h2
        simp
      | cons b bs ih =>
        intro xs ys h2
        match xs, ys with
        | [], [] => rfl
        | [], y :: ys2 => simp at h2
        | x :: xs2, [] => simp at h2
        | x :: xs2, y :: ys2 =>
          simp only [List.map_cons, List.cons.injEq] at h2
          obtain ⟨h3, h4⟩ := h2
          simp only [List.zipWith_cons_cons]
          rw [h3, ih xs2 ys2 h4]
    exact key sel m.data m2.data h
  · intro sel c
    rfl
  · intro s2F r hok
    simp only [selectFeaturesM, doCVSelectionM, clearResults] at hok
    rcases hA : doCVSelectionAux splitTT selectFeatsF cvRateF getClsF regF
        selectByFeatureId sF.break_crit sF.pattern []
        (featureCandidatePool getFeatureId sF.mask)
        (combos sF.pattern sF.metacvtype) [] [] [] with ⟨p2, res⟩
    rw [hA] at hok
    match res with
    | .error e => simp at hok
    | .ok X =>
      obtain ⟨F, R⟩ := X
      obtain ⟨outs, hall, -, -, -⟩ := doCVSelectionAux_ok _ _ _ _ hA
      exact ⟨outs, hall⟩
  · intro s2R r2 hok
    simp only [selectROIsM, doCVSelectionM, clearResults] at hok
    rcases hA : doCVSelectionAux splitTT selectFeatsR cvRateR getClsR regR
        (selectByMaskValue sR.mask) sR.break_crit sR.pattern
        (List.replicate sR.mask.data.length false)
        (roiCandidatePool sR.mask)
        (combos sR.pattern sR.metacvtype) [] [] [] with ⟨p2, res⟩
    rw [hA] at hok
    match res with
    | .error e => simp at hok
    | .ok X =>
      obtain ⟨F, R⟩ := X
      obtain ⟨outs, hall, -, -, -⟩ := doCVSelectionAux_ok _ _ _ _ hA
      exact ⟨outs, hall⟩

set_option maxRecDepth 100000 in
/-- Witness for the amended C2: the two-fold scenarios whose second fold
raises `"boom"`; the first fold of each completed with accuracy 1, which
the accuracy accumulator retains. -/
theorem claim2_amended_witness :
    ((("boom" : String) = "boom") ∧
      ({ pattern := [0, 1], mask := ⟨[1], [0]⟩, cvtype := 1,
         metacvtype := 1, break_crit := 1 / 1000, perfs := [1],
         selection_masks := [], metacv_origins := [0, 1] } :
           IFS (List ℤ) Nat (List Nat)).selection_masks = [] ∧
      ∃ (folds1 : List Nat) (x : Nat) (folds2 : List Nat)
        (outs : List (List Nat × List Nat × ℚ)),
        exCombos2 exStateF0.pattern exStateF0.metacvtype =
          folds1 ++ x :: folds2 ∧
        List.Forall₂ (fun y o => foldOutcome exSplitTTfail exSelectFeats
          exCvRate exGetCls exReg selectByFeatureId exStateF0.break_crit
          exStateF0.pattern []
          (featureCandidatePool (fun i => i) exStateF0.mask) y = .ok o)
          folds1 outs ∧
        ({ pattern := [0, 1], mask := ⟨[1], [0]⟩, cvtype := 1,
           metacvtype := 1, break_crit := 1 / 1000, perfs := [1],
           selection_masks := [], metacv_origins := [0, 1] } :
             IFS (List ℤ) Nat (List Nat)).perfs =
          outs.map (fun o => o.2.2) ∧
        foldOutcome exSplitTTfail exSelectFeats exCvRate exGetCls exReg
          selectByFeatureId exStateF0.break_crit exStateF0.pattern []
          (featureCandidatePool (fun i => i) exStateF0.mask) x =
          .error "boom") ∧
    ((("boom" : String) = "boom") ∧
      ({ pattern := [0, 1], mask := ⟨[0], []⟩, cvtype := 1,
         metacvtype := 1, break_crit := 1 / 1000, perfs := [1],
         selection_masks := [], metacv_origins := [0, 1] } :
           IFS (List ℤ) Nat (List Bool)).selection_masks = [] ∧
      ∃ (folds1 : List Nat) (x : Nat) (folds2 : List Nat)
        (outs : List (List Bool × List ℤ × ℚ)),
        exCombos2 exStateR0.pattern exStateR0.metacvtype =
          folds1 ++ x :: folds2 ∧
        List.Forall₂ (fun y o => foldOutcome exSplitTTfail exSelectFeatsR
          exCvRateR exGetCls exReg (selectByMaskValue exStateR0.mask)
          exStateR0.break_crit exStateR0.pattern
          (List.replicate exStateR0.mask.data.length false)
          (roiCandidatePool exStateR0.mask) y = .ok o) folds1 outs ∧
        ({ pattern := [0, 1], mask := ⟨[0], []⟩, cvtype := 1,
           metacvtype := 1, break_crit := 1 / 1000, perfs := [1],
           selection_masks := [], metacv_origins := [0, 1] } :
             IFS (List ℤ) Nat (List Bool)).perfs =
          outs.map (fun o => o.2.2) ∧
        foldOutcome exSplitTTfail exSelectFeatsR exCvRateR exGetCls exReg
          (selectByMaskValue exStateR0.mask) exStateR0.break_crit
          exStateR0.pattern
          (List.replicate exStateR0.mask.data.length false)
          (roiCandidatePool exStateR0.mask) x = .error "boom") :=
  claim2_amended (fun e => e = "boom") exCombos2 exSplitTTfail
    exSelectFeats exCvRate exGetCls exReg (fun i => i) (fun f => f)
    exSelectFeatsR exCvRateR exGetCls exReg exStateF0
    { pattern := [0, 1], mask := ⟨[1], [0]⟩, cvtype := 1,
      metacvtype := 1, break_crit := 1 / 1000, perfs := [1],
      selection_masks := [], metacv_origins := [0, 1] }
    exStateR0
    { pattern := [0, 1], mask := ⟨[0], []⟩, cvtype := 1,
      metacvtype := 1, break_crit := 1 / 1000, perfs := [1],
      selection_masks := [], metacv_origins := [0, 1] }
    "boom" "boom"
    (by
      intro p x e h
      unfold exSplitTTfail at h
      split at h
      · exact absurd h (by simp)
      · simpa using h.symm)
    (by intro p t e h; simp [exSelectFeats] at h)
    (by intro p e h; simp [exCvRate] at h)
    (by intro p q e h; simp [exGetCls] at h)
    (by intro p t e h; simp [exSelectFeatsR] at h)
    (by intro p e h; simp [exCvRateR] at h)
    (by intro p q e h; simp [exGetCls] at h)
    (by with_unfolding_all decide)
    (by with_unfolding_all decide)

set_option maxRecDepth 100000 in
/-- Witness for C5: concrete runs of both entry points that accept every
candidate. -/
theorem claim5_returns_chosen_ids_witness :
    selectFeaturesM exCombos exSplitTT exSelectFeats exCvRate exGetCls
        exReg (fun i => i) (fun f => f) exStateF =
      ({ pattern := [0, 1], mask := ⟨[2], [5, 7]⟩, cvtype := 1,
         metacvtype := 1, break_crit := 1 / 1000, perfs := [1],
         selection_masks := [[0, 1]], metacv_origins := [0] },
       .ok [[0, 1]]) ∧
    selectROIsM exCombos exSplitTT exSelectFeatsR exCvRateR exGetCls exReg
        exStateR =
      ({ pattern := [0, 1], mask := ⟨[1], [4]⟩, cvtype := 1,
         metacvtype := 1, break_crit := 1 / 1000, perfs := [1],
         selection_masks := [[true]], metacv_origins := [0] },
       .ok [[4]]) ∧
    ((∃ outs : List (List Nat × List Nat × ℚ),
        List.Forall₂ (fun x o => foldOutcome exSplitTT exSelectFeats
            exCvRate exGetCls exReg selectByFeatureId exStateF.break_crit
            exStateF.pattern []
            (featureCandidatePool (fun i => i) exStateF.mask) x = .ok o)
          (exCombos exStateF.pattern exStateF.metacvtype) outs ∧
        [[0, 1]] = outs.map (fun o => o.1) ∧
        [[0, 1]] = outs.map (fun o => o.2.1)) ∧
      (∃ outs : List (List Bool × List ℤ × ℚ),
        List.Forall₂ (fun x o => foldOutcome exSplitTT exSelectFeatsR
            exCvRateR exGetCls exReg (selectByMaskValue exStateR.mask)
            exStateR.break_crit exStateR.pattern
            (List.replicate exStateR.mask.data.length false)
            (roiCandidatePool exStateR.mask) x = .ok o)
          (exCombos exStateR.pattern exStateR.metacvtype) outs ∧
        [[4]] = outs.map (fun o => o.2.1))) := by
  have h1 : selectFeaturesM exCombos exSplitTT exSelectFeats exCvRate
      exGetCls exReg (fun i => i) (fun f => f) exStateF =
      ({ pattern := [0, 1], mask := ⟨[2], [5, 7]⟩, cvtype := 1,
         metacvtype := 1, break_crit := 1 / 1000, perfs := [1],
         selection_masks := [[0, 1]], metacv_origins := [0] },
       .ok [[0, 1]]) := by with_unfolding_all decide
  have h2 : selectROIsM exCombos exSplitTT exSelectFeatsR exCvRateR
      exGetCls exReg exStateR =
      ({ pattern := [0, 1], mask := ⟨[1], [4]⟩, cvtype := 1,
         metacvtype := 1, break_crit := 1 / 1000, perfs := [1],
         selection_masks := [[true]], metacv_origins := [0] },
       .ok [[4]]) := by with_unfolding_all decide
  exact ⟨h1, h2, claim5_returns_chosen_ids exCombos exSplitTT exSelectFeats
    exCvRate exGetCls exReg (fun i => i) (fun f => f) exStateF _ _
    exSelectFeatsR exCvRateR exGetCls exReg exStateR _ _ h1 h2⟩

set_option maxRecDepth 100000 in
/-- Witness for C10: the concrete runs leave the stored mask unchanged and
factor fold-wise through the shared empty initial selection. -/
theorem claim10_no_mutation_witness :
    (selectFeaturesM exCombos exSplitTT exSelectFeats exCvRate exGetCls
        exReg (fun i => i) (fun f => f) exStateF).1.mask =
      exStateF.mask ∧
    (selectROIsM exCombos exSplitTT exSelectFeatsR exCvRateR exGetCls
        exReg exStateR).1.mask = exStateR.mask ∧
    (∃ outs : List (List Nat × List Nat × ℚ),
      List.Forall₂ (fun x o => foldOutcome exSplitTT exSelectFeats
          exCvRate exGetCls exReg selectByFeatureId exStateF.break_crit
          exStateF.pattern []
          (featureCandidatePool (fun i => i) exStateF.mask) x = .ok o)
        (exCombos exStateF.pattern exStateF.metacvtype) outs) := by
  have h := claim10_no_mutation exCombos exSplitTT exSelectFeats exCvRate
    exGetCls exReg (fun i => i) (fun f => f) exSelectFeatsR exCvRateR
    exGetCls exReg exStateF exStateR
  refine ⟨h.1.1, h.2.1.1, ?_⟩
  exact h.2.2.2.2.1
    { pattern := [0, 1], mask := ⟨[2], [5, 7]⟩, cvtype := 1,
      metacvtype := 1, break_crit := 1 / 1000, perfs := [1],
      selection_masks := [[0, 1]], metacv_origins := [0] }
    [[0, 1]] (by with_unfolding_all decide)

end IncrSearch
